import Mathlib

/-!
Shallow embedding of the kivi scheduler (src/src/scheduler/scheduler.js).

The scheduler coordinates three timing domains: microtasks (flushed to a
fixpoint in waves), macrotasks (one pass per flush) and frame tasks
(write/read alternation followed by an after phase).  Tasks are identified
by natural numbers; an environment maps each task id to the list of
scheduler actions its callback performs when invoked.  Each flush routine
is translated as a fuel-bounded structurally recursive function returning
the final scheduler state together with the trace of events it emitted;
a task raising an error propagates as a `thrown` result, faithfully to the
source, which has no try/finally around any flush routine.
-/

namespace Kivi

/-- SchedulerFlags (scheduler.js lines 14-22). -/
def RUNNING : Nat := 0x0100

/-- MICROTASK_PENDING bit of SchedulerFlags. -/
def MICROTASK_PENDING : Nat := 0x0001

/-- MACROTASK_PENDING bit of SchedulerFlags. -/
def MACROTASK_PENDING : Nat := 0x0002

/-- FRAMETASK_PENDING bit of SchedulerFlags. -/
def FRAMETASK_PENDING : Nat := 0x0008

/-- MICROTASK_RUNNING bit of SchedulerFlags (declared, never used by the code). -/
def MICROTASK_RUNNING : Nat := 0x0010

/-- MACROTASK_RUNNING bit of SchedulerFlags (declared, never used by the code). -/
def MACROTASK_RUNNING : Nat := 0x0020

/-- FRAMETASK_RUNNING bit of SchedulerFlags (declared, never used by the code). -/
def FRAMETASK_RUNNING : Nat := 0x0080

/-- Modelled from the spec: kivi.scheduler.FrameFlags is required by
scheduler.js but its file is not under src/.  Spec section 3 gives the bit
set {WRITE, WRITE_PRIO, READ, AFTER} with WRITE_ANY = WRITE | WRITE_PRIO;
the concrete bit positions are chosen as distinct powers of two. -/
def WRITE_PRIO : Nat := 0x1

/-- Modelled from the spec: WRITE bit of FrameFlags. -/
def WRITE : Nat := 0x2

/-- Modelled from the spec: READ bit of FrameFlags. -/
def READ : Nat := 0x4

/-- Modelled from the spec: AFTER bit of FrameFlags. -/
def AFTER : Nat := 0x8

/-- Modelled from the spec: WRITE_ANY = WRITE | WRITE_PRIO. -/
def WRITE_ANY : Nat := WRITE ||| WRITE_PRIO

/-- Which frame a scheduling call targets: `currentFrame()` or `nextFrame()`
(scheduler.js lines 185-200). -/
inductive Tgt where
  | current : Tgt
  | next : Tgt
deriving DecidableEq, Repr

/-- One scheduler-API action a task's callback may perform while it runs.
`throwErr` models the callback raising an error at that point (the remaining
actions are skipped and the error propagates). -/
inductive Act where
  | scheduleMicrotask : Nat → Act
  | scheduleMacrotask : Nat → Act
  | frameWrite : Tgt → Nat → Act
  | framePrioWrite : Tgt → Nat → Nat → Act
  | frameRead : Tgt → Nat → Act
  | frameAfter : Tgt → Nat → Act
  | throwErr : Act
deriving DecidableEq, Repr

/-- The phase that executed a task, recorded on its trace event. -/
inductive PTag where
  | micro : PTag
  | macroT : PTag
  | prioT : PTag
  | writeT : PTag
  | readT : PTag
  | afterT : PTag
deriving DecidableEq, Repr

/-- Trace events: a task execution tagged with its phase, a microtask wave
boundary, and the frame flush's per-iteration phase boundaries (one
writePhase and one readPhase marker per iteration of the outer do/while of
_handleAnimationFrame, one afterPhase marker per iteration of the AFTER loop). -/
inductive Ev where
  | run : PTag → Nat → Ev
  | wave : Ev
  | writePhase : Ev
  | readPhase : Ev
  | afterPhase : Ev
deriving DecidableEq, Repr

/-- Modelled from the spec: the Frame task container (kivi.scheduler.Frame is
not under src/).  Spec section 3: flags bitmask, plain writeTasks, rank-indexed
writeTaskGroups whose slots are nulled as they drain, readTasks which the
flush detaches (sets to null, hence an Option), and afterTasks. -/
structure Frame where
  flags : Nat
  writeTaskGroups : List (Option (List Nat))
  writeTasks : List Nat
  readTasks : Option (List Nat)
  afterTasks : List Nat
deriving DecidableEq, Repr

/-- Modelled from the spec: a fresh empty Frame. -/
def Frame.empty : Frame :=
  { flags := 0, writeTaskGroups := [], writeTasks := [], readTasks := none, afterTasks := [] }

/-- Modelled from the spec: append a plain write task and mark WRITE. -/
def Frame.write (fr : Frame) (t : Nat) : Frame :=
  { fr with flags := fr.flags ||| WRITE, writeTasks := fr.writeTasks ++ [t] }

/-- Modelled from the spec: extend the group list up to `rank` and append
`t` to the group at that slot (a nulled slot gets a fresh group). -/
def pushGroup (gs : List (Option (List Nat))) (rank t : Nat) : List (Option (List Nat)) :=
  let gs1 := gs ++ List.replicate (rank + 1 - gs.length) none
  gs1.set rank (some ((gs1.getD rank none).getD [] ++ [t]))

/-- Modelled from the spec: append a priority write task at `rank` and mark
WRITE_PRIO. -/
def Frame.writePrio (fr : Frame) (rank t : Nat) : Frame :=
  { fr with flags := fr.flags ||| WRITE_PRIO,
            writeTaskGroups := pushGroup fr.writeTaskGroups rank t }

/-- Modelled from the spec: append a read task (recreating the container if
it was detached to null) and mark READ. -/
def Frame.read (fr : Frame) (t : Nat) : Frame :=
  { fr with flags := fr.flags ||| READ,
            readTasks := some (fr.readTasks.getD [] ++ [t]) }

/-- Modelled from the spec: append an after task and mark AFTER. -/
def Frame.after (fr : Frame) (t : Nat) : Frame :=
  { fr with flags := fr.flags ||| AFTER, afterTasks := fr.afterTasks ++ [t] }

/-- Scheduler state (scheduler.js lines 40-61).  `rafCount`, `microReq` and
`macroReq` count the host registrations requested through
window.requestAnimationFrame and the two requestNextTick primitives; they
model the external host, which the code only ever calls, never reads. -/
structure Sched where
  flags : Nat
  clock : Nat
  microtasks : List Nat
  macrotasks : List Nat
  currentFrame : Frame
  nextFrame : Frame
  rafCount : Nat
  microReq : Nat
  macroReq : Nat
deriving DecidableEq, Repr

/-- The freshly constructed scheduler (scheduler.js constructor): flags 0,
clock 1, empty queues, two empty frames. -/
def Sched.init : Sched :=
  { flags := 0, clock := 1, microtasks := [], macrotasks := [],
    currentFrame := Frame.empty, nextFrame := Frame.empty,
    rafCount := 0, microReq := 0, macroReq := 0 }

/-- scheduleMicrotask (scheduler.js lines 207-214): arm the microtask host
registration unless MICROTASK_PENDING is already set, then push. -/
def Sched.scheduleMicrotask (s : Sched) (t : Nat) : Sched :=
  let s1 := if s.flags &&& MICROTASK_PENDING = 0
    then { s with flags := s.flags ||| MICROTASK_PENDING, microReq := s.microReq + 1 }
    else s
  { s1 with microtasks := s1.microtasks ++ [t] }

/-- scheduleMacrotask (scheduler.js lines 221-228). -/
def Sched.scheduleMacrotask (s : Sched) (t : Nat) : Sched :=
  let s1 := if s.flags &&& MACROTASK_PENDING = 0
    then { s with flags := s.flags ||| MACROTASK_PENDING, macroReq := s.macroReq + 1 }
    else s
  { s1 with macrotasks := s1.macrotasks ++ [t] }

/-- nextFrame's arming part (scheduler.js lines 194-200): if FRAMETASK_PENDING
is clear, set it and request one host animation-frame callback. -/
def Sched.nextFrameArm (s : Sched) : Sched :=
  if s.flags &&& FRAMETASK_PENDING = 0
  then { s with flags := s.flags ||| FRAMETASK_PENDING, rafCount := s.rafCount + 1 }
  else s

/-- nextFrame() (scheduler.js lines 194-200): arm if needed, return the
next Frame. -/
def Sched.nextFrameCall (s : Sched) : Sched × Frame :=
  let s1 := s.nextFrameArm
  (s1, s1.nextFrame)

/-- Apply a Frame-updating function to the frame a call targets; a call on
the next frame goes through nextFrame() and hence arms the registration. -/
def Sched.updFrame (s : Sched) (g : Tgt) (f : Frame → Frame) : Sched :=
  match g with
  | Tgt.current => { s with currentFrame := f s.currentFrame }
  | Tgt.next =>
      let s1 := s.nextFrameArm
      { s1 with nextFrame := f s1.nextFrame }

/-- Effect of one non-throwing action on the scheduler state. -/
def applyAct (s : Sched) : Act → Sched
  | Act.scheduleMicrotask t => s.scheduleMicrotask t
  | Act.scheduleMacrotask t => s.scheduleMacrotask t
  | Act.frameWrite g t => s.updFrame g (fun fr => fr.write t)
  | Act.framePrioWrite g r t => s.updFrame g (fun fr => fr.writePrio r t)
  | Act.frameRead g t => s.updFrame g (fun fr => fr.read t)
  | Act.frameAfter g t => s.updFrame g (fun fr => fr.after t)
  | Act.throwErr => s

/-- Run a callback's action list; the Bool is false when it raised. -/
def runActs : List Act → Sched → Sched × Bool
  | [], s => (s, true)
  | a :: rest, s =>
      if a = Act.throwErr then (s, false) else runActs rest (applyAct s a)

/-- An environment assigns every task id the actions its callback performs. -/
def Env : Type := Nat → List Act

/-- Result of a flush fragment: normal completion, an uncaught task error
propagating (with the state at the raise), or fuel exhaustion. -/
inductive Res where
  | ok : Sched → List Ev → Res
  | thrown : Sched → List Ev → Res
  | out : Res
deriving DecidableEq, Repr

/-- Prefix a trace onto a fragment's trace. -/
def Res.app (tr : List Ev) : Res → Res
  | Res.ok s' tr' => Res.ok s' (tr ++ tr')
  | Res.thrown s' tr' => Res.thrown s' (tr ++ tr')
  | Res.out => Res.out

/-- Sequence two fragments, appending traces; a thrown error skips the rest. -/
def Res.bind : Res → (Sched → Res) → Res
  | Res.ok s tr, k => Res.app tr (k s)
  | Res.thrown s tr, _ => Res.thrown s tr
  | Res.out, _ => Res.out

/-- Prepend one event to a fragment's trace. -/
def Res.pre (e : Ev) : Res → Res
  | Res.ok s tr => Res.ok s (e :: tr)
  | Res.thrown s tr => Res.thrown s (e :: tr)
  | Res.out => Res.out

/-- Execute one task: emit its run event, then perform its actions. -/
def runTask (env : Env) (tag : PTag) (t : Nat) (s : Sched) : Res :=
  match runActs (env t) s with
  | (s', true) => Res.ok s' [Ev.run tag t]
  | (s', false) => Res.thrown s' [Ev.run tag t]

/-- Execute a detached batch of tasks in arrival order. -/
def runSeq (env : Env) (tag : PTag) : List Nat → Sched → Res
  | [], s => Res.ok s []
  | t :: ts, s => (runTask env tag t s).bind (runSeq env tag ts)

/-- Bit clear: `bclear f m` removes from `f` the bits it shares with `m`;
this is the value of JS `f & ~m` on flag words. -/
def bclear (f m : Nat) : Nat := f ^^^ (f &&& m)

/-- Clear bits `m` in the scheduler's flags (JS `flags &= ~m`). -/
def clearSchedFlag (s : Sched) (m : Nat) : Sched :=
  { s with flags := bclear s.flags m }

/-- Clear bits `m` in the current frame's flags. -/
def clearFrameFlag (s : Sched) (m : Nat) : Sched :=
  { s with currentFrame := { s.currentFrame with flags := bclear s.currentFrame.flags m } }

/-- The while loop of the microtask flush (scheduler.js lines 69-78): while
the live queue is non-empty, detach it into a batch, replace the live queue
by an empty one, run the batch, and repeat on whatever the batch scheduled.
Each iteration is one wave. -/
def microLoop (env : Env) : Nat → List Nat → Sched → Res
  | _, [], s => Res.ok s []
  | 0, _ :: _, _ => Res.out
  | fuel + 1, b :: bs, s =>
      Res.pre Ev.wave
        ((runSeq env PTag.micro (b :: bs) { s with microtasks := [] }).bind
          (fun s1 => microLoop env fuel s1.microtasks s1))

/-- The microtask flush callback (scheduler.js lines 66-82): set RUNNING,
drain waves to a fixpoint, then increment the clock and clear
MICROTASK_PENDING and RUNNING.  An uncaught error skips the bookkeeping. -/
def microFlush (env : Env) (fuel : Nat) (s : Sched) : Res :=
  let s1 := { s with flags := s.flags ||| RUNNING }
  (microLoop env fuel s1.microtasks s1).bind
    (fun s2 => Res.ok { clearSchedFlag s2 (MICROTASK_PENDING ||| RUNNING) with
                          clock := s2.clock + 1 } [])

/-- The entry bookkeeping of the macrotask flush (scheduler.js lines 86-87):
clear MACROTASK_PENDING immediately, set RUNNING. -/
def macroEntry (s : Sched) : Sched :=
  { clearSchedFlag s MACROTASK_PENDING with
      flags := bclear s.flags MACROTASK_PENDING ||| RUNNING }

/-- The macrotask flush callback (scheduler.js lines 85-100): entry
bookkeeping, then if the queue is non-empty detach it and run the batch once
in arrival order (no fixpoint), then increment the clock and clear RUNNING. -/
def macroFlush (env : Env) (s : Sched) : Res :=
  let s1 := macroEntry s
  let fin := fun (s2 : Sched) =>
    Res.ok { clearSchedFlag s2 RUNNING with clock := s2.clock + 1 } ([] : List Ev)
  if s1.macrotasks = [] then fin s1
  else (runSeq env PTag.macroT s1.macrotasks { s1 with macrotasks := [] }).bind fin

/-- The for loop over writeTaskGroups (scheduler.js lines 123-136): ascending
rank, re-reading the live (aliased) group array each step; a non-null slot is
nulled out (detached) and its group executed in arrival order. -/
def prioSweep (env : Env) : Nat → Nat → Sched → Res
  | 0, _, _ => Res.out
  | fuel + 1, i, s =>
      if i < s.currentFrame.writeTaskGroups.length then
        match s.currentFrame.writeTaskGroups.getD i none with
        | none => prioSweep env fuel (i + 1) s
        | some g =>
            let s1 := { s with currentFrame := { s.currentFrame with
                          writeTaskGroups := s.currentFrame.writeTaskGroups.set i none } }
            (runSeq env PTag.prioT g s1).bind (fun s2 => prioSweep env fuel (i + 1) s2)
      else Res.ok s []

/-- The for loop over writeTasks (scheduler.js lines 141-149): the local
variable aliases the live array, so the loop re-reads the live list and its
length at every step; the container is not detached. -/
def writeSweep (env : Env) : Nat → Nat → Sched → Res
  | 0, _, _ => Res.out
  | fuel + 1, i, s =>
      if i < s.currentFrame.writeTasks.length then
        (runTask env PTag.writeT (s.currentFrame.writeTasks.getD i 0) s).bind
          (fun s1 => writeSweep env fuel (i + 1) s1)
      else Res.ok s []

/-- The inner while over WRITE_ANY (scheduler.js lines 118-151): while any
write bit is set, run the priority branch (clear WRITE_PRIO, sweep the
groups) and then the plain branch (clear WRITE, sweep writeTasks). -/
def writeAnyLoop (env : Env) : Nat → Sched → Res
  | 0, _ => Res.out
  | fuel + 1, s =>
      if s.currentFrame.flags &&& WRITE_ANY ≠ 0 then
        (if s.currentFrame.flags &&& WRITE_PRIO ≠ 0 then
            prioSweep env fuel 0 (clearFrameFlag s WRITE_PRIO)
          else Res.ok s []).bind
          (fun s1 =>
            (if s1.currentFrame.flags &&& WRITE ≠ 0 then
                writeSweep env fuel 0 (clearFrameFlag s1 WRITE)
              else Res.ok s1 []).bind
              (fun s2 => writeAnyLoop env fuel s2))
      else Res.ok s []

/-- The while over READ (scheduler.js lines 153-162): clear READ, detach
readTasks (replace by null) and run the detached batch in arrival order. -/
def readLoop (env : Env) : Nat → Sched → Res
  | 0, _ => Res.out
  | fuel + 1, s =>
      if s.currentFrame.flags &&& READ ≠ 0 then
        let batch := s.currentFrame.readTasks.getD []
        let s1 := { clearFrameFlag s READ with
                      currentFrame := { (clearFrameFlag s READ).currentFrame with
                                          readTasks := none } }
        (runSeq env PTag.readT batch s1).bind (fun s2 => readLoop env fuel s2)
      else Res.ok s []

/-- The outer do/while of the frame flush (scheduler.js lines 117-163): one
write phase (the WRITE_ANY loop) then one read phase (the READ loop) per
iteration, repeated while WRITE_ANY is set again after the read phase.
Each iteration emits a writePhase and a readPhase boundary marker. -/
def altLoop (env : Env) : Nat → Sched → Res
  | 0, _ => Res.out
  | fuel + 1, s =>
      (Res.pre Ev.writePhase (writeAnyLoop env fuel s)).bind
        (fun s1 =>
          (Res.pre Ev.readPhase (readLoop env fuel s1)).bind
            (fun s2 =>
              if s2.currentFrame.flags &&& WRITE_ANY ≠ 0 then altLoop env fuel s2
              else Res.ok s2 []))

/-- The for loop over afterTasks (scheduler.js lines 168-172): like
writeTasks, the local variable aliases the live array; no detach. -/
def afterSweep (env : Env) : Nat → Nat → Sched → Res
  | 0, _, _ => Res.out
  | fuel + 1, i, s =>
      if i < s.currentFrame.afterTasks.length then
        (runTask env PTag.afterT (s.currentFrame.afterTasks.getD i 0) s).bind
          (fun s1 => afterSweep env fuel (i + 1) s1)
      else Res.ok s []

/-- The while over AFTER (scheduler.js lines 165-173): clear AFTER and sweep
the (not detached) afterTasks array. -/
def afterLoop (env : Env) : Nat → Sched → Res
  | 0, _ => Res.out
  | fuel + 1, s =>
      if s.currentFrame.flags &&& AFTER ≠ 0 then
        (Res.pre Ev.afterPhase (afterSweep env fuel 0 (clearFrameFlag s AFTER))).bind
          (fun s1 => afterLoop env fuel s1)
      else Res.ok s []

/-- The entry bookkeeping of the frame flush (scheduler.js lines 110-115):
clear FRAMETASK_PENDING, set RUNNING, swap the current and next frames. -/
def frameEntry (s : Sched) : Sched :=
  { s with flags := bclear s.flags FRAMETASK_PENDING ||| RUNNING,
           currentFrame := s.nextFrame, nextFrame := s.currentFrame }

/-- The animation-frame flush callback (scheduler.js lines 103-177): entry
bookkeeping, the write/read alternation, the after loop, then increment the
clock and clear RUNNING.  An uncaught task error skips the exit bookkeeping
(the source has no try/finally). -/
def frameFlush (env : Env) (fuel : Nat) (s : Sched) : Res :=
  (altLoop env fuel (frameEntry s)).bind
    (fun s2 =>
      (afterLoop env fuel s2).bind
        (fun s3 => Res.ok { clearSchedFlag s3 RUNNING with clock := s3.clock + 1 } []))

/-- Final state of a fragment, when it has one (ok or thrown). -/
def Res.endSt : Res → Option Sched
  | Res.ok s _ => some s
  | Res.thrown s _ => some s
  | Res.out => none

/-- The RUNNING-family bits: the generic bit and the three per-domain bits. -/
def DOMRUN : Nat := MICROTASK_RUNNING ||| (MACROTASK_RUNNING ||| FRAMETASK_RUNNING)

/-- All four running bits. -/
def RUNMASK : Nat := RUNNING ||| DOMRUN

/-- Facts preserved by every task action and every loop of every flush:
the clock is untouched, scheduler flags only gain bits outside the
RUNNING family, and the current frame's writeTasks and afterTasks lists only
grow at the tail (nothing ever removes from them inside a pass). -/
structure Grow (s s' : Sched) : Prop where
  clock_eq : s'.clock = s.clock
  flags_or : ∃ p, p &&& RUNMASK = 0 ∧ s'.flags = s.flags ||| p
  wt_grow : ∃ l, s'.currentFrame.writeTasks = s.currentFrame.writeTasks ++ l
  at_grow : ∃ l, s'.currentFrame.afterTasks = s.currentFrame.afterTasks ++ l

/-- Additional facts preserved by task actions and by the three sweeps,
which never clear frame flags: the current frame's flags only gain bits,
and the read queue only grows. -/
structure ActsGrow (s s' : Sched) : Prop where
  grow : Grow s s'
  ff_or : ∃ q, s'.currentFrame.flags = s.currentFrame.flags ||| q
  rt_grow : ∃ l, s'.currentFrame.readTasks.getD [] = s.currentFrame.readTasks.getD [] ++ l
  mac_grow : ∃ l, s'.macrotasks = s.macrotasks ++ l

/-- What the WRITE_ANY loop preserves: the universal bundle, read-queue
growth, and every set frame-flag bit outside WRITE_ANY staying set. -/
structure WAGrow (s s' : Sched) : Prop where
  grow : Grow s s'
  rt_grow : ∃ l, s'.currentFrame.readTasks.getD [] = s.currentFrame.readTasks.getD [] ++ l
  ff_pres : ∀ m, m &&& WRITE_ANY = 0 →
    s.currentFrame.flags &&& m ≠ 0 → s'.currentFrame.flags &&& m ≠ 0

/-- What the READ loop preserves: the universal bundle and every set frame
flag outside READ staying set. -/
structure RLGrow (s s' : Sched) : Prop where
  grow : Grow s s'
  ff_pres : ∀ m, m &&& READ = 0 →
    s.currentFrame.flags &&& m ≠ 0 → s'.currentFrame.flags &&& m ≠ 0

/-- The microtask ids one action contributes to the live queue. -/
def actMicro1 : Act → List Nat
  | Act.scheduleMicrotask t => [t]
  | _ => []

/-- The microtask ids a whole action list appends to the live queue
(stopping at a raise, which skips the remaining actions). -/
def actMicros : List Act → List Nat
  | [] => []
  | a :: rest => if a = Act.throwErr then [] else actMicro1 a ++ actMicros rest

/-- Coupling between the current afterTasks list and the AFTER bit, preserved
by actions and by the after sweep (which never clears AFTER itself). -/
structure ATight (s s' : Sched) : Prop where
  at_grow : ∃ l, s'.currentFrame.afterTasks = s.currentFrame.afterTasks ++ l
  at_mono : s.currentFrame.flags &&& AFTER ≠ 0 → s'.currentFrame.flags &&& AFTER ≠ 0
  at_tight : s'.currentFrame.afterTasks = s.currentFrame.afterTasks →
    s'.currentFrame.flags &&& AFTER = s.currentFrame.flags &&& AFTER
  at_set : s'.currentFrame.afterTasks ≠ s.currentFrame.afterTasks →
    s'.currentFrame.flags &&& AFTER ≠ 0

/-- One observable step of the scheduler: an external caller performs one
scheduling action (scheduleMicrotask, scheduleMacrotask, a write/read/after
or priority write through currentFrame()/nextFrame()), a bare nextFrame()
call arms the frame registration, or the host invokes one of the three flush
callbacks, which completes or aborts on an uncaught task error. -/
inductive Step : Sched → Sched → Prop where
  | act (s : Sched) (a : Act) : Step s (applyAct s a)
  | nextF (s : Sched) : Step s s.nextFrameArm
  | microF (env : Env) (fuel : Nat) (s s' : Sched) :
      (microFlush env fuel s).endSt = some s' → Step s s'
  | macroF (env : Env) (s s' : Sched) :
      (macroFlush env s).endSt = some s' → Step s s'
  | frameF (env : Env) (fuel : Nat) (s s' : Sched) :
      (frameFlush env fuel s).endSt = some s' → Step s s'

/-- States reachable from the freshly constructed scheduler. -/
def Reach (s : Sched) : Prop := Relation.ReflTransGen Step Sched.init s

/-- N successive nextFrame() calls (each caller keeping only the returned
frame; the state threads through). -/
def nfIter : Nat → Sched → Sched
  | 0, s => s
  | n + 1, s => nfIter n (Sched.nextFrameCall s).1

/-- The wave chain of a microtask drain: each wave is a non-empty snapshot
batch, and the next wave's batch is exactly what the tasks of this wave
scheduled (in order), collected into the freshly emptied live queue. -/
inductive Waves (env : Env) : List Nat → List (List Nat) → Prop where
  | nil : Waves env [] []
  | cons (b : List Nat) (ws : List (List Nat)) (hb : b ≠ [])
      (h : Waves env (b.flatMap (fun t => actMicros (env t))) ws) :
      Waves env b (b :: ws)

/-- Concrete scenario for C5: macrotask 0 schedules macrotask 1. -/
def envC5 : Env := fun t => if t = 0 then [Act.scheduleMacrotask 1] else []

/-- Scheduler with macrotask 0 queued and its registration armed. -/
def sC5 : Sched := { Sched.init with flags := MACROTASK_PENDING, macrotasks := [0] }

/-- Concrete scenario for C2: microtasks A = 0 and B = 1 queued; running A
schedules C = 2. -/
def envC2 : Env := fun t => if t = 0 then [Act.scheduleMicrotask 2] else []

/-- Scheduler with microtasks [0, 1] queued and the registration armed. -/
def sC2 : Sched := { Sched.init with flags := MICROTASK_PENDING, microtasks := [0, 1] }

/-- Scheduler for the C4 witness: rank 0 holds task 10, rank 2 holds task 11
(rank 1 empty), both armed in the same pass. -/
def sC4 : Sched :=
  { Sched.init with currentFrame :=
      { Frame.empty with flags := WRITE_PRIO,
                         writeTaskGroups := [some [10], none, some [11]] } }

/-- Scenario for C8: the armed frame's single plain write task raises. -/
def envC8 : Env := fun t => if t = 0 then [Act.throwErr] else []

/-- Scheduler for the C8 scenario. -/
def sC8 : Sched :=
  { Sched.init with flags := FRAMETASK_PENDING,
                    nextFrame := { Frame.empty with flags := WRITE, writeTasks := [0] } }

/-- Scenario for C9: the draining frame holds plain write 0, read task 2
(which schedules plain write 3 into the active frame) and after task 5. -/
def envC9 : Env := fun t => if t = 2 then [Act.frameWrite Tgt.current 3] else []

/-- Scheduler for the C9 counterexample. -/
def sC9 : Sched :=
  { Sched.init with flags := FRAMETASK_PENDING,
                    nextFrame := { Frame.empty with
                                     flags := WRITE ||| (READ ||| AFTER),
                                     writeTasks := [0],
                                     readTasks := some [2],
                                     afterTasks := [5] } }

/-- The full trace of the C9 counterexample flush. -/
def trC9 : List Ev :=
  [Ev.writePhase, Ev.run PTag.writeT 0, Ev.readPhase, Ev.run PTag.readT 2,
   Ev.writePhase, Ev.run PTag.writeT 0, Ev.run PTag.writeT 3, Ev.readPhase,
   Ev.afterPhase, Ev.run PTag.afterT 5]

/-- Environment for the amended C9 theorem's four detach demonstrations. -/
def envC9a : Env := fun t =>
  if t = 0 then [Act.scheduleMicrotask 1]
  else if t = 10 then [Act.scheduleMacrotask 11]
  else if t = 20 then [Act.framePrioWrite Tgt.current 0 21]
  else if t = 30 then [Act.frameRead Tgt.current 31]
  else []

/-- Scheduler with microtask 0 queued (0 schedules microtask 1). -/
def sC9micro : Sched := { Sched.init with microtasks := [0] }

/-- Scheduler with macrotask 10 queued (10 schedules macrotask 11). -/
def sC9macro : Sched := { Sched.init with macrotasks := [10] }

/-- Scheduler with priority write 20 at rank 0 (20 schedules 21 at rank 0). -/
def sC9prio : Sched :=
  { Sched.init with nextFrame := { Frame.empty with
                                     flags := WRITE_PRIO,
                                     writeTaskGroups := [some [20]] } }

/-- Scheduler with read task 30 queued (30 schedules read 31). -/
def sC9read : Sched :=
  { Sched.init with nextFrame := { Frame.empty with
                                     flags := READ,
                                     readTasks := some [30] } }

/-- Scenario for the C1 witness: read task 0 schedules plain write 1 into
the active frame. -/
def envC1 : Env := fun t => if t = 0 then [Act.frameWrite Tgt.current 1] else []

/-- Scheduler for the C1 witness. -/
def sC1 : Sched :=
  { Sched.init with flags := FRAMETASK_PENDING,
                    nextFrame := { Frame.empty with
                                     flags := READ,
                                     readTasks := some [0] } }

/-- Scheduler for the C7 witness: after task 5 armed in the frame. -/
def sC7 : Sched :=
  { Sched.init with flags := FRAMETASK_PENDING,
                    nextFrame := { Frame.empty with flags := AFTER, afterTasks := [5] } }

/-! Bitmask helper lemmas. -/

/-- AND distributes over OR on the left argument. -/
theorem bit_and_or_right (a b m : Nat) : (a ||| b) &&& m = (a &&& m) ||| (b &&& m) := by
  apply Nat.eq_of_testBit_eq
  intro i
  simp only [Nat.testBit_land, Nat.testBit_lor]
  cases a.testBit i <;> cases b.testBit i <;> cases m.testBit i <;> rfl

/-- AND distributes over OR on the right argument. -/
theorem bit_and_or_left (f a b : Nat) : f &&& (a ||| b) = (f &&& a) ||| (f &&& b) := by
  apply Nat.eq_of_testBit_eq
  intro i
  simp only [Nat.testBit_land, Nat.testBit_lor]
  cases f.testBit i <;> cases a.testBit i <;> cases b.testBit i <;> rfl

/-- An OR is zero exactly when both arguments are. -/
theorem bit_or_eq_zero {a b : Nat} : a ||| b = 0 ↔ a = 0 ∧ b = 0 := by
  constructor
  · intro h
    constructor
    · apply Nat.zero_of_testBit_eq_false
      intro i
      have hi := congrArg (fun n => Nat.testBit n i) h
      simp only [Nat.testBit_lor, Nat.zero_testBit] at hi
      exact (Bool.or_eq_false_iff.mp hi).1
    · apply Nat.zero_of_testBit_eq_false
      intro i
      have hi := congrArg (fun n => Nat.testBit n i) h
      simp only [Nat.testBit_lor, Nat.zero_testBit] at hi
      exact (Bool.or_eq_false_iff.mp hi).2
  · rintro ⟨rfl, rfl⟩
    rfl

/-- ORing in bits disjoint from the mask does not change the masked value. -/
theorem bit_or_and_disj {p m : Nat} (f : Nat) (h : p &&& m = 0) :
    (f ||| p) &&& m = f &&& m := by
  rw [bit_and_or_right, h]
  apply Nat.eq_of_testBit_eq
  intro i
  simp only [Nat.testBit_lor, Nat.zero_testBit, Bool.or_false]

/-- Bit `i` of `bclear f m` is bit `i` of `f` with the bits of `m` removed. -/
theorem testBit_bclear (f m i : Nat) :
    (bclear f m).testBit i = (f.testBit i && !(m.testBit i)) := by
  simp only [bclear, Nat.testBit_xor, Nat.testBit_land]
  cases f.testBit i <;> cases m.testBit i <;> rfl

/-- Clearing bits disjoint from the mask does not change the masked value. -/
theorem bit_clear_and_disj {p m : Nat} (f : Nat) (h : p &&& m = 0) :
    bclear f p &&& m = f &&& m := by
  apply Nat.eq_of_testBit_eq
  intro i
  have hi := congrArg (fun n => Nat.testBit n i) h
  simp only [Nat.testBit_land, Nat.zero_testBit] at hi
  simp only [Nat.testBit_land, testBit_bclear]
  cases hp : p.testBit i <;> cases hm : m.testBit i <;> simp_all

/-- Clearing a mask leaves nothing of it. -/
theorem bit_clear_and_self (f m : Nat) : bclear f m &&& m = 0 := by
  apply Nat.zero_of_testBit_eq_false
  intro i
  simp only [Nat.testBit_land, testBit_bclear]
  cases f.testBit i <;> cases m.testBit i <;> rfl

/-- A bit that is set stays set after ORing in more bits. -/
theorem bit_set_mono {f m : Nat} (p : Nat) (h : f &&& m ≠ 0) : (f ||| p) &&& m ≠ 0 := by
  rw [bit_and_or_right]
  intro hz
  exact h (bit_or_eq_zero.mp hz).1

/-- Splitting a test against a union of masks. -/
theorem bit_and_union {f a b : Nat} : f &&& (a ||| b) ≠ 0 ↔ f &&& a ≠ 0 ∨ f &&& b ≠ 0 := by
  rw [bit_and_or_left]
  constructor
  · intro h
    by_contra hc
    push_neg at hc
    exact h (by rw [hc.1, hc.2]; rfl)
  · intro h hz
    rcases bit_or_eq_zero.mp hz with ⟨h1, h2⟩
    cases h with
    | inl h => exact h h1
    | inr h => exact h h2

/-- Disjointness from a union gives disjointness from each part. -/
theorem bit_disj_union {m a b : Nat} (h : m &&& (a ||| b) = 0) :
    m &&& a = 0 ∧ m &&& b = 0 := by
  rw [bit_and_or_left] at h
  exact bit_or_eq_zero.mp h

/-! Result combinator lemmas. -/

/-- Inversion of a successful bind. -/
theorem Res.bind_eq_ok {r : Res} {k : Sched → Res} {s' : Sched} {tr' : List Ev}
    (h : r.bind k = Res.ok s' tr') :
    ∃ s1 tr1 tr2, r = Res.ok s1 tr1 ∧ k s1 = Res.ok s' tr2 ∧ tr' = tr1 ++ tr2 := by
  cases r with
  | ok s tr =>
      rw [Res.bind] at h
      cases hk : k s with
      | ok t u => rw [hk, Res.app] at h; cases h; exact ⟨s, tr, u, rfl, hk, rfl⟩
      | thrown t u => rw [hk, Res.app] at h; cases h
      | out => rw [hk, Res.app] at h; cases h
  | thrown s tr => rw [Res.bind] at h; cases h
  | out => rw [Res.bind] at h; cases h

/-- Forward computation of a bind when both sides are known. -/
theorem Res.bind_ok {r : Res} {k : Sched → Res} {s1 s' : Sched} {tr1 tr2 : List Ev}
    (h1 : r = Res.ok s1 tr1) (h2 : k s1 = Res.ok s' tr2) :
    r.bind k = Res.ok s' (tr1 ++ tr2) := by
  subst h1
  rw [Res.bind, h2, Res.app]

/-- End-state analysis of a bind. -/
theorem Res.endSt_bind {r : Res} {k : Sched → Res} {s' : Sched}
    (h : (r.bind k).endSt = some s') :
    (∃ tr, r = Res.thrown s' tr) ∨
      (∃ s1 tr, r = Res.ok s1 tr ∧ (k s1).endSt = some s') := by
  cases r with
  | ok s tr =>
      right
      refine ⟨s, tr, rfl, ?_⟩
      rw [Res.bind] at h
      cases hk : k s with
      | ok t u => rw [hk, Res.app, Res.endSt] at h; rw [Res.endSt]; exact h
      | thrown t u => rw [hk, Res.app, Res.endSt] at h; rw [Res.endSt]; exact h
      | out => rw [hk, Res.app] at h; cases h
  | thrown s tr =>
      rw [Res.bind, Res.endSt] at h
      cases h
      exact Or.inl ⟨tr, rfl⟩
  | out => rw [Res.bind] at h; cases h

/-- Inversion of a successful pre. -/
theorem Res.pre_eq_ok {e : Ev} {r : Res} {s' : Sched} {tr' : List Ev}
    (h : Res.pre e r = Res.ok s' tr') :
    ∃ tr, r = Res.ok s' tr ∧ tr' = e :: tr := by
  cases r with
  | ok s tr => rw [Res.pre] at h; cases h; exact ⟨tr, rfl, rfl⟩
  | thrown s tr => rw [Res.pre] at h; cases h
  | out => rw [Res.pre] at h; cases h

/-- End state of a pre. -/
theorem Res.endSt_pre (e : Ev) (r : Res) : (Res.pre e r).endSt = r.endSt := by
  cases r <;> rfl

/-- Unwrap a pre around an end-state fact. -/
theorem Res.endSt_of_pre {e : Ev} {r : Res} {s' : Sched}
    (h : (Res.pre e r).endSt = some s') : r.endSt = some s' := by
  rw [← Res.endSt_pre e r]
  exact h

/-! Preservation bundles: what any task action, and hence any loop body,
can and cannot change in the scheduler state. -/

theorem Grow.growRefl (s : Sched) : Grow s s :=
  ⟨rfl, ⟨0, by decide, (Nat.or_zero _).symm⟩,
    ⟨[], (List.append_nil _).symm⟩, ⟨[], (List.append_nil _).symm⟩⟩

theorem Grow.growTrans {s1 s2 s3 : Sched} (a : Grow s1 s2) (b : Grow s2 s3) : Grow s1 s3 := by
  refine ⟨b.clock_eq.trans a.clock_eq, ?_, ?_, ?_⟩
  · obtain ⟨p, hp, e1⟩ := a.flags_or
    obtain ⟨q, hq, e2⟩ := b.flags_or
    refine ⟨p ||| q, ?_, ?_⟩
    · rw [bit_and_or_right, hp, hq]; rfl
    · rw [e2, e1, Nat.lor_assoc]
  · obtain ⟨l1, e1⟩ := a.wt_grow
    obtain ⟨l2, e2⟩ := b.wt_grow
    exact ⟨l1 ++ l2, by rw [e2, e1, List.append_assoc]⟩
  · obtain ⟨l1, e1⟩ := a.at_grow
    obtain ⟨l2, e2⟩ := b.at_grow
    exact ⟨l1 ++ l2, by rw [e2, e1, List.append_assoc]⟩

theorem ActsGrow.agRefl (s : Sched) : ActsGrow s s :=
  ⟨Grow.growRefl s, ⟨0, (Nat.or_zero _).symm⟩, ⟨[], (List.append_nil _).symm⟩,
    ⟨[], (List.append_nil _).symm⟩⟩

theorem ActsGrow.agTrans {s1 s2 s3 : Sched} (a : ActsGrow s1 s2) (b : ActsGrow s2 s3) :
    ActsGrow s1 s3 := by
  refine ⟨a.grow.growTrans b.grow, ?_, ?_, ?_⟩
  · obtain ⟨q1, e1⟩ := a.ff_or
    obtain ⟨q2, e2⟩ := b.ff_or
    exact ⟨q1 ||| q2, by rw [e2, e1, Nat.lor_assoc]⟩
  · obtain ⟨l1, e1⟩ := a.rt_grow
    obtain ⟨l2, e2⟩ := b.rt_grow
    exact ⟨l1 ++ l2, by rw [e2, e1, List.append_assoc]⟩
  · obtain ⟨l1, e1⟩ := a.mac_grow
    obtain ⟨l2, e2⟩ := b.mac_grow
    exact ⟨l1 ++ l2, by rw [e2, e1, List.append_assoc]⟩

/-- A state change that touches neither frame nor clock, possibly extending
the macrotask queue and only ORing non-RUNNING bits into the scheduler
flags, satisfies the bundle. -/
theorem actsGrow_of_sched {s s' : Sched} (hc : s'.clock = s.clock)
    (hf : ∃ p, p &&& RUNMASK = 0 ∧ s'.flags = s.flags ||| p)
    (hcf : s'.currentFrame = s.currentFrame)
    (hmac : ∃ l, s'.macrotasks = s.macrotasks ++ l) : ActsGrow s s' := by
  refine ⟨⟨hc, hf, ?_, ?_⟩, ?_, ?_, hmac⟩ <;> rw [hcf]
  · exact ⟨[], (List.append_nil _).symm⟩
  · exact ⟨[], (List.append_nil _).symm⟩
  · exact ⟨0, (Nat.or_zero _).symm⟩
  · exact ⟨[], (List.append_nil _).symm⟩

theorem nextFrameArm_flags (s : Sched) :
    ∃ p, p &&& RUNMASK = 0 ∧ (s.nextFrameArm).flags = s.flags ||| p := by
  rw [Sched.nextFrameArm]
  split
  · exact ⟨FRAMETASK_PENDING, by decide, rfl⟩
  · exact ⟨0, by decide, (Nat.or_zero _).symm⟩

theorem nextFrameArm_clock (s : Sched) : (s.nextFrameArm).clock = s.clock := by
  rw [Sched.nextFrameArm]; split <;> rfl

theorem nextFrameArm_currentFrame (s : Sched) :
    (s.nextFrameArm).currentFrame = s.currentFrame := by
  rw [Sched.nextFrameArm]; split <;> rfl

theorem nextFrameArm_nextFrame (s : Sched) :
    (s.nextFrameArm).nextFrame = s.nextFrame := by
  rw [Sched.nextFrameArm]; split <;> rfl

theorem nextFrameArm_macrotasks (s : Sched) :
    (s.nextFrameArm).macrotasks = s.macrotasks := by
  rw [Sched.nextFrameArm]; split <;> rfl

/-- The bundle for a next-frame scheduling action. -/
theorem actsGrow_nextTarget (s : Sched) (f : Frame → Frame) :
    ActsGrow s (s.updFrame Tgt.next f) := by
  apply actsGrow_of_sched
  · exact nextFrameArm_clock s
  · exact nextFrameArm_flags s
  · exact nextFrameArm_currentFrame s
  · exact ⟨[], by rw [List.append_nil]; exact nextFrameArm_macrotasks s⟩

/-- Every single action satisfies the bundle. -/
theorem applyAct_grow (s : Sched) (a : Act) : ActsGrow s (applyAct s a) := by
  cases a with
  | scheduleMicrotask t =>
      apply actsGrow_of_sched
      · rw [applyAct, Sched.scheduleMicrotask]; split <;> rfl
      · rw [applyAct, Sched.scheduleMicrotask]
        split
        · exact ⟨MICROTASK_PENDING, by decide, rfl⟩
        · exact ⟨0, by decide, (Nat.or_zero _).symm⟩
      · rw [applyAct, Sched.scheduleMicrotask]; split <;> rfl
      · rw [applyAct, Sched.scheduleMicrotask]
        split <;> exact ⟨[], (List.append_nil _).symm⟩
  | scheduleMacrotask t =>
      apply actsGrow_of_sched
      · rw [applyAct, Sched.scheduleMacrotask]; split <;> rfl
      · rw [applyAct, Sched.scheduleMacrotask]
        split
        · exact ⟨MACROTASK_PENDING, by decide, rfl⟩
        · exact ⟨0, by decide, (Nat.or_zero _).symm⟩
      · rw [applyAct, Sched.scheduleMacrotask]; split <;> rfl
      · rw [applyAct, Sched.scheduleMacrotask]
        split <;> exact ⟨[t], rfl⟩
  | frameWrite g t =>
      cases g with
      | current =>
          exact ⟨⟨rfl, ⟨0, by decide, (Nat.or_zero _).symm⟩, ⟨[t], rfl⟩,
                   ⟨[], (List.append_nil _).symm⟩⟩,
                 ⟨WRITE, rfl⟩, ⟨[], (List.append_nil _).symm⟩,
                 ⟨[], (List.append_nil _).symm⟩⟩
      | next => rw [applyAct]; exact actsGrow_nextTarget s _
  | framePrioWrite g r t =>
      cases g with
      | current =>
          exact ⟨⟨rfl, ⟨0, by decide, (Nat.or_zero _).symm⟩,
                   ⟨[], (List.append_nil _).symm⟩, ⟨[], (List.append_nil _).symm⟩⟩,
                 ⟨ WRITE_PRIO, rfl⟩, ⟨[], (List.append_nil _).symm⟩,
                 ⟨[], (List.append_nil _).symm⟩⟩
      | next => rw [applyAct]; exact actsGrow_nextTarget s _
  | frameRead g t =>
      cases g with
      | current =>
          refine ⟨⟨rfl, ⟨0, by decide, (Nat.or_zero _).symm⟩,
                   ⟨[], (List.append_nil _).symm⟩, ⟨[], (List.append_nil _).symm⟩⟩,
                 ⟨READ, rfl⟩, ⟨[t], ?_⟩, ⟨[], (List.append_nil _).symm⟩⟩
          simp [applyAct, Sched.updFrame, Frame.read]
      | next => rw [applyAct]; exact actsGrow_nextTarget s _
  | frameAfter g t =>
      cases g with
      | current =>
          exact ⟨⟨rfl, ⟨0, by decide, (Nat.or_zero _).symm⟩,
                   ⟨[], (List.append_nil _).symm⟩, ⟨[t], rfl⟩⟩,
                 ⟨AFTER, rfl⟩, ⟨[], (List.append_nil _).symm⟩,
                 ⟨[], (List.append_nil _).symm⟩⟩
      | next => rw [applyAct]; exact actsGrow_nextTarget s _
  | throwErr => exact ActsGrow.agRefl s

/-- Running a whole action list satisfies the bundle (whether or not it
raised along the way). -/
theorem runActs_grow : ∀ (acts : List Act) (s : Sched), ActsGrow s (runActs acts s).1
  | [], s => ActsGrow.agRefl s
  | a :: rest, s => by
      rw [runActs]
      split
      · exact ActsGrow.agRefl s
      · exact (applyAct_grow s a).agTrans (runActs_grow rest _)

/-- Executing one task satisfies the bundle. -/
theorem runTask_grow (env : Env) (tag : PTag) (t : Nat) (s s' : Sched)
    (h : (runTask env tag t s).endSt = some s') : ActsGrow s s' := by
  rw [runTask] at h
  rcases hr : runActs (env t) s with ⟨s1, b⟩
  rw [hr] at h
  have hg := runActs_grow (env t) s
  rw [hr] at hg
  cases b <;> rw [Res.endSt] at h <;> cases h <;> exact hg

/-- Executing a batch satisfies the bundle. -/
theorem runSeq_grow (env : Env) (tag : PTag) :
    ∀ (l : List Nat) (s s' : Sched), (runSeq env tag l s).endSt = some s' → ActsGrow s s'
  | [], s, s', h => by
      rw [runSeq, Res.endSt] at h
      cases h
      exact ActsGrow.agRefl s
  | t :: ts, s, s', h => by
      rw [runSeq] at h
      rcases Res.endSt_bind h with ⟨tr, he⟩ | ⟨s1, tr, he, h2⟩
      · exact runTask_grow env tag t s s' (by rw [he]; rfl)
      · exact (runTask_grow env tag t s s1 (by rw [he]; rfl)).agTrans
          (runSeq_grow env tag ts s1 s' h2)

/-- Changing only the group list of the current frame satisfies the bundle. -/
theorem actsGrow_groups (s : Sched) (gs : List (Option (List Nat))) :
    ActsGrow s { s with currentFrame := { s.currentFrame with writeTaskGroups := gs } } :=
  ⟨⟨rfl, ⟨0, by decide, (Nat.or_zero _).symm⟩, ⟨[], (List.append_nil _).symm⟩,
     ⟨[], (List.append_nil _).symm⟩⟩,
   ⟨0, (Nat.or_zero _).symm⟩, ⟨[], (List.append_nil _).symm⟩,
   ⟨[], (List.append_nil _).symm⟩⟩

/-- Clearing the live microtask queue satisfies the bundle. -/
theorem actsGrow_micro_clear (s : Sched) :
    ActsGrow s { s with microtasks := [] } :=
  ⟨⟨rfl, ⟨0, by decide, (Nat.or_zero _).symm⟩, ⟨[], (List.append_nil _).symm⟩,
     ⟨[], (List.append_nil _).symm⟩⟩,
   ⟨0, (Nat.or_zero _).symm⟩, ⟨[], (List.append_nil _).symm⟩,
   ⟨[], (List.append_nil _).symm⟩⟩

/-- Clearing frame flag bits is within the universal bundle. -/
theorem clearFrameFlag_grow (s : Sched) (m : Nat) : Grow s (clearFrameFlag s m) :=
  ⟨rfl, ⟨0, by decide, (Nat.or_zero _).symm⟩, ⟨[], (List.append_nil _).symm⟩,
    ⟨[], (List.append_nil _).symm⟩⟩

/-- The priority-group sweep satisfies the acts bundle. -/
theorem prioSweep_grow (env : Env) :
    ∀ (fuel i : Nat) (s s' : Sched), (prioSweep env fuel i s).endSt = some s' → ActsGrow s s'
  | 0, _, _, _, h => by rw [prioSweep] at h; cases h
  | fuel + 1, i, s, s', h => by
      rw [prioSweep] at h
      split at h
      · rcases hg : s.currentFrame.writeTaskGroups.getD i none with _ | g <;> rw [hg] at h
        · exact prioSweep_grow env fuel (i + 1) s s' h
        · rcases Res.endSt_bind h with ⟨tr, he⟩ | ⟨s2, tr, he, h2⟩
          · exact (actsGrow_groups s _).agTrans
              (runSeq_grow env PTag.prioT g _ s' (by rw [he]; rfl))
          · exact ((actsGrow_groups s _).agTrans
              (runSeq_grow env PTag.prioT g _ s2 (by rw [he]; rfl))).agTrans
              (prioSweep_grow env fuel (i + 1) s2 s' h2)
      · rw [Res.endSt] at h; cases h; exact ActsGrow.agRefl s

/-- The plain write sweep satisfies the acts bundle. -/
theorem writeSweep_grow (env : Env) :
    ∀ (fuel i : Nat) (s s' : Sched), (writeSweep env fuel i s).endSt = some s' → ActsGrow s s'
  | 0, _, _, _, h => by rw [writeSweep] at h; cases h
  | fuel + 1, i, s, s', h => by
      rw [writeSweep] at h
      split at h
      · rcases Res.endSt_bind h with ⟨tr, he⟩ | ⟨s2, tr, he, h2⟩
        · exact runTask_grow env PTag.writeT _ s s' (by rw [he]; rfl)
        · exact (runTask_grow env PTag.writeT _ s s2 (by rw [he]; rfl)).agTrans
            (writeSweep_grow env fuel (i + 1) s2 s' h2)
      · rw [Res.endSt] at h; cases h; exact ActsGrow.agRefl s

/-- The after sweep satisfies the acts bundle. -/
theorem afterSweep_grow (env : Env) :
    ∀ (fuel i : Nat) (s s' : Sched), (afterSweep env fuel i s).endSt = some s' → ActsGrow s s'
  | 0, _, _, _, h => by rw [afterSweep] at h; cases h
  | fuel + 1, i, s, s', h => by
      rw [afterSweep] at h
      split at h
      · rcases Res.endSt_bind h with ⟨tr, he⟩ | ⟨s2, tr, he, h2⟩
        · exact runTask_grow env PTag.afterT _ s s' (by rw [he]; rfl)
        · exact (runTask_grow env PTag.afterT _ s s2 (by rw [he]; rfl)).agTrans
            (afterSweep_grow env fuel (i + 1) s2 s' h2)
      · rw [Res.endSt] at h; cases h; exact ActsGrow.agRefl s

/-- The microtask wave loop satisfies the acts bundle. -/
theorem microLoop_grow (env : Env) :
    ∀ (fuel : Nat) (batch : List Nat) (s s' : Sched),
      (microLoop env fuel batch s).endSt = some s' → ActsGrow s s'
  | _, [], s, s', h => by rw [microLoop, Res.endSt] at h; cases h; exact ActsGrow.agRefl s
  | 0, _ :: _, _, _, h => by rw [microLoop] at h; cases h
  | fuel + 1, b :: bs, s, s', h => by
      rw [microLoop, Res.endSt_pre] at h
      rcases Res.endSt_bind h with ⟨tr, he⟩ | ⟨s2, tr, he, h2⟩
      · exact (actsGrow_micro_clear s).agTrans
          (runSeq_grow env PTag.micro (b :: bs) _ s' (by rw [he]; rfl))
      · exact ((actsGrow_micro_clear s).agTrans
          (runSeq_grow env PTag.micro (b :: bs) _ s2 (by rw [he]; rfl))).agTrans
          (microLoop_grow env fuel s2.microtasks s2 s' h2)

theorem WAGrow.waTrans {s1 s2 s3 : Sched} (a : WAGrow s1 s2) (b : WAGrow s2 s3) :
    WAGrow s1 s3 := by
  refine ⟨a.grow.growTrans b.grow, ?_, ?_⟩
  · obtain ⟨l1, e1⟩ := a.rt_grow
    obtain ⟨l2, e2⟩ := b.rt_grow
    exact ⟨l1 ++ l2, by rw [e2, e1, List.append_assoc]⟩
  · intro m hm hs
    exact b.ff_pres m hm (a.ff_pres m hm hs)

theorem ActsGrow.toWA {s s' : Sched} (a : ActsGrow s s') : WAGrow s s' := by
  refine ⟨a.grow, a.rt_grow, ?_⟩
  intro m _ hs
  obtain ⟨q, e⟩ := a.ff_or
  rw [e]
  exact bit_set_mono q hs

/-- Clearing a sub-mask of WRITE_ANY on the frame is within the WA bundle. -/
theorem clearFrameFlag_wa {c : Nat} (s : Sched) (hc : c &&& WRITE_ANY = c) :
    WAGrow s (clearFrameFlag s c) := by
  refine ⟨clearFrameFlag_grow s c, ⟨[], (List.append_nil _).symm⟩, ?_⟩
  intro m hm hs
  rw [clearFrameFlag]
  have hcm : c &&& m = 0 := by
    rw [← hc, Nat.land_assoc]
    have h2 : WRITE_ANY &&& m = 0 := by rw [Nat.land_comm]; exact hm
    rw [h2]
    exact Nat.and_zero c
  rw [bit_clear_and_disj _ hcm]
  exact hs

/-- The WRITE_ANY loop satisfies the WA bundle. -/
theorem writeAnyLoop_grow (env : Env) :
    ∀ (fuel : Nat) (s s' : Sched), (writeAnyLoop env fuel s).endSt = some s' → WAGrow s s'
  | 0, _, _, h => by rw [writeAnyLoop] at h; cases h
  | fuel + 1, s, s', h => by
      rw [writeAnyLoop] at h
      split at h
      · have step1 : ∀ s1 : Sched,
            ((if s.currentFrame.flags &&& WRITE_PRIO ≠ 0 then
                prioSweep env fuel 0 (clearFrameFlag s WRITE_PRIO)
              else Res.ok s [])).endSt = some s1 → WAGrow s s1 := by
          intro s1 h1
          split at h1
          · exact (clearFrameFlag_wa s (by decide)).waTrans
              ((prioSweep_grow env fuel 0 _ s1 h1).toWA)
          · rw [Res.endSt] at h1; cases h1; exact (ActsGrow.agRefl s).toWA
        have step2 : ∀ sa s1 : Sched,
            ((if sa.currentFrame.flags &&& WRITE ≠ 0 then
                writeSweep env fuel 0 (clearFrameFlag sa WRITE)
              else Res.ok sa [])).endSt = some s1 → WAGrow sa s1 := by
          intro sa s1 h1
          split at h1
          · exact (clearFrameFlag_wa sa (by decide)).waTrans
              ((writeSweep_grow env fuel 0 _ s1 h1).toWA)
          · rw [Res.endSt] at h1; cases h1; exact (ActsGrow.agRefl sa).toWA
        rcases Res.endSt_bind h with ⟨tr, he⟩ | ⟨s1, tr, he, h2⟩
        · exact step1 s' (by rw [he]; rfl)
        · have w1 : WAGrow s s1 := step1 s1 (by rw [he]; rfl)
          rcases Res.endSt_bind h2 with ⟨tr2, he2⟩ | ⟨s2, tr2, he2, h3⟩
          · exact w1.waTrans (step2 s1 s' (by rw [he2]; rfl))
          · exact (w1.waTrans (step2 s1 s2 (by rw [he2]; rfl))).waTrans
              (writeAnyLoop_grow env fuel s2 s' h3)
      · rw [Res.endSt] at h; cases h; exact (ActsGrow.agRefl s).toWA

theorem RLGrow.rlTrans {s1 s2 s3 : Sched} (a : RLGrow s1 s2) (b : RLGrow s2 s3) :
    RLGrow s1 s3 :=
  ⟨a.grow.growTrans b.grow, fun m hm hs => b.ff_pres m hm (a.ff_pres m hm hs)⟩

theorem ActsGrow.toRL {s s' : Sched} (a : ActsGrow s s') : RLGrow s s' := by
  refine ⟨a.grow, ?_⟩
  intro m _ hs
  obtain ⟨q, e⟩ := a.ff_or
  rw [e]
  exact bit_set_mono q hs

/-- The READ loop's clear-and-detach step is within the RL bundle. -/
theorem readDetach_rl (s : Sched) :
    RLGrow s { clearFrameFlag s READ with
                 currentFrame := { (clearFrameFlag s READ).currentFrame with
                                     readTasks := none } } := by
  refine ⟨⟨rfl, ⟨0, by decide, (Nat.or_zero _).symm⟩, ⟨[], (List.append_nil _).symm⟩,
            ⟨[], (List.append_nil _).symm⟩⟩, ?_⟩
  intro m hm hs
  show bclear s.currentFrame.flags READ &&& m ≠ 0
  have hrm : READ &&& m = 0 := by rw [Nat.land_comm]; exact hm
  rw [bit_clear_and_disj _ hrm]
  exact hs

/-- The READ loop satisfies the RL bundle. -/
theorem readLoop_grow (env : Env) :
    ∀ (fuel : Nat) (s s' : Sched), (readLoop env fuel s).endSt = some s' → RLGrow s s'
  | 0, _, _, h => by rw [readLoop] at h; cases h
  | fuel + 1, s, s', h => by
      rw [readLoop] at h
      split at h
      · rcases Res.endSt_bind h with ⟨tr, he⟩ | ⟨s2, tr, he, h2⟩
        · exact (readDetach_rl s).rlTrans
            ((runSeq_grow env PTag.readT _ _ s' (by rw [he]; rfl)).toRL)
        · exact ((readDetach_rl s).rlTrans
            ((runSeq_grow env PTag.readT _ _ s2 (by rw [he]; rfl)).toRL)).rlTrans
            (readLoop_grow env fuel s2 s' h2)
      · rw [Res.endSt] at h; cases h; exact (ActsGrow.agRefl s).toRL

/-- The whole write/read alternation satisfies the universal bundle. -/
theorem altLoop_grow (env : Env) :
    ∀ (fuel : Nat) (s s' : Sched), (altLoop env fuel s).endSt = some s' → Grow s s'
  | 0, _, _, h => by rw [altLoop] at h; cases h
  | fuel + 1, s, s', h => by
      rw [altLoop] at h
      rcases Res.endSt_bind h with ⟨tr, he⟩ | ⟨s1, tr, he, h2⟩
      · exact (writeAnyLoop_grow env fuel s s'
          (Res.endSt_of_pre (by rw [he]; rfl))).grow
      · have g1 : Grow s s1 := (writeAnyLoop_grow env fuel s s1
          (Res.endSt_of_pre (by rw [he]; rfl))).grow
        rcases Res.endSt_bind h2 with ⟨tr2, he2⟩ | ⟨s2, tr2, he2, h3⟩
        · exact g1.growTrans (readLoop_grow env fuel s1 s'
            (Res.endSt_of_pre (by rw [he2]; rfl))).grow
        · have g2 : Grow s1 s2 := (readLoop_grow env fuel s1 s2
            (Res.endSt_of_pre (by rw [he2]; rfl))).grow
          split at h3
          · exact (g1.growTrans g2).growTrans (altLoop_grow env fuel s2 s' h3)
          · rw [Res.endSt] at h3; cases h3; exact g1.growTrans g2

/-- The AFTER loop satisfies the universal bundle. -/
theorem afterLoop_grow (env : Env) :
    ∀ (fuel : Nat) (s s' : Sched), (afterLoop env fuel s).endSt = some s' → Grow s s'
  | 0, _, _, h => by rw [afterLoop] at h; cases h
  | fuel + 1, s, s', h => by
      rw [afterLoop] at h
      split at h
      · rcases Res.endSt_bind h with ⟨tr, he⟩ | ⟨s1, tr, he, h2⟩
        · exact (clearFrameFlag_grow s AFTER).growTrans
            (afterSweep_grow env fuel 0 _ s' (Res.endSt_of_pre (by rw [he]; rfl))).grow
        · exact ((clearFrameFlag_grow s AFTER).growTrans
            (afterSweep_grow env fuel 0 _ s1 (Res.endSt_of_pre (by rw [he]; rfl))).grow).growTrans
            (afterLoop_grow env fuel s1 s' h2)
      · rw [Res.endSt] at h; cases h; exact Grow.growRefl s

/-! Trace shapes and state effects of running tasks. -/

/-- ORing a non-zero mask into flags makes its test non-zero. -/
theorem bit_or_self_ne {m : Nat} (f : Nat) (hm : m ≠ 0) : (f ||| m) &&& m ≠ 0 := by
  rw [bit_and_or_right, Nat.and_self]
  intro hz
  exact hm (bit_or_eq_zero.mp hz).2

/-- Inversion of a successfully completed task. -/
theorem runTask_eq_ok {env : Env} {tag : PTag} {t : Nat} {s s' : Sched} {tr : List Ev}
    (h : runTask env tag t s = Res.ok s' tr) :
    runActs (env t) s = (s', true) ∧ tr = [Ev.run tag t] := by
  rw [runTask] at h
  rcases hr : runActs (env t) s with ⟨s1, b⟩
  rw [hr] at h
  cases b
  · cases h
  · cases h
    exact ⟨rfl, rfl⟩

/-- The trace of a completed batch is its tasks' run events in order. -/
theorem runSeq_trace (env : Env) (tag : PTag) :
    ∀ (l : List Nat) (s s' : Sched) (tr : List Ev),
      runSeq env tag l s = Res.ok s' tr → tr = l.map (Ev.run tag)
  | [], s, s', tr, h => by rw [runSeq] at h; cases h; rfl
  | t :: ts, s, s', tr, h => by
      rw [runSeq] at h
      obtain ⟨s1, tr1, tr2, h1, h2, rfl⟩ := Res.bind_eq_ok h
      obtain ⟨hr, rfl⟩ := runTask_eq_ok h1
      rw [runSeq_trace env tag ts s1 s' tr2 h2]
      rfl

theorem nextFrameArm_microtasks (s : Sched) :
    (s.nextFrameArm).microtasks = s.microtasks := by
  rw [Sched.nextFrameArm]; split <;> rfl

/-- One action's exact effect on the microtask queue. -/
theorem applyAct_micro_eq (s : Sched) (a : Act) :
    (applyAct s a).microtasks = s.microtasks ++ actMicro1 a := by
  cases a with
  | scheduleMicrotask t =>
      rw [applyAct, Sched.scheduleMicrotask]
      split <;> rfl
  | scheduleMacrotask t =>
      show (Sched.scheduleMacrotask s t).microtasks = s.microtasks ++ []
      rw [List.append_nil, Sched.scheduleMacrotask]
      split <;> rfl
  | frameWrite g t =>
      cases g with
      | current =>
          show (applyAct s (Act.frameWrite Tgt.current t)).microtasks = s.microtasks ++ []
          rw [List.append_nil]
          rfl
      | next => show (s.updFrame Tgt.next _).microtasks = s.microtasks ++ []
                rw [List.append_nil, Sched.updFrame]
                exact nextFrameArm_microtasks s
  | framePrioWrite g r t =>
      cases g with
      | current =>
          show (applyAct s (Act.framePrioWrite Tgt.current r t)).microtasks = s.microtasks ++ []
          rw [List.append_nil]
          rfl
      | next => show (s.updFrame Tgt.next _).microtasks = s.microtasks ++ []
                rw [List.append_nil, Sched.updFrame]
                exact nextFrameArm_microtasks s
  | frameRead g t =>
      cases g with
      | current =>
          show (applyAct s (Act.frameRead Tgt.current t)).microtasks = s.microtasks ++ []
          rw [List.append_nil]
          rfl
      | next => show (s.updFrame Tgt.next _).microtasks = s.microtasks ++ []
                rw [List.append_nil, Sched.updFrame]
                exact nextFrameArm_microtasks s
  | frameAfter g t =>
      cases g with
      | current =>
          show (applyAct s (Act.frameAfter Tgt.current t)).microtasks = s.microtasks ++ []
          rw [List.append_nil]
          rfl
      | next => show (s.updFrame Tgt.next _).microtasks = s.microtasks ++ []
                rw [List.append_nil, Sched.updFrame]
                exact nextFrameArm_microtasks s
  | throwErr =>
      show (applyAct s Act.throwErr).microtasks = s.microtasks ++ []
      rw [List.append_nil]
      rfl

/-- An action list's exact effect on the microtask queue. -/
theorem runActs_micro_eq : ∀ (acts : List Act) (s : Sched),
    (runActs acts s).1.microtasks = s.microtasks ++ actMicros acts
  | [], s => (List.append_nil _).symm
  | a :: rest, s => by
      by_cases ha : a = Act.throwErr
      · rw [runActs, if_pos ha, actMicros, if_pos ha, List.append_nil]
      · rw [runActs, if_neg ha, actMicros, if_neg ha,
          runActs_micro_eq rest (applyAct s a), applyAct_micro_eq, List.append_assoc]

/-- A completed batch's exact effect on the microtask queue. -/
theorem runSeq_micro_eq (env : Env) (tag : PTag) :
    ∀ (l : List Nat) (s s' : Sched) (tr : List Ev),
      runSeq env tag l s = Res.ok s' tr →
      s'.microtasks = s.microtasks ++ l.flatMap (fun t => actMicros (env t))
  | [], s, s', tr, h => by rw [runSeq] at h; cases h; rw [List.flatMap_nil, List.append_nil]
  | t :: ts, s, s', tr, h => by
      rw [runSeq] at h
      obtain ⟨s1, tr1, tr2, h1, h2, rfl⟩ := Res.bind_eq_ok h
      obtain ⟨hr, _⟩ := runTask_eq_ok h1
      have e1 : s1.microtasks = s.microtasks ++ actMicros (env t) := by
        have := runActs_micro_eq (env t) s
        rw [hr] at this
        exact this
      rw [List.flatMap_cons, runSeq_micro_eq env tag ts s1 s' tr2 h2, e1, List.append_assoc]

/-- A completed run of an action list containing a current-frame plain write
leaves the written task in writeTasks with WRITE set. -/
theorem runActs_frameWrite (w : Nat) : ∀ (acts : List Act) (s : Sched),
    (runActs acts s).2 = true → Act.frameWrite Tgt.current w ∈ acts →
    w ∈ (runActs acts s).1.currentFrame.writeTasks ∧
      (runActs acts s).1.currentFrame.flags &&& WRITE ≠ 0
  | [], _, _, hm => absurd hm (List.not_mem_nil _)
  | a :: rest, s, hb, hm => by
      by_cases ha : a = Act.throwErr
      · rw [runActs, if_pos ha] at hb; cases hb
      · rw [runActs, if_neg ha] at hb ⊢
        rcases List.mem_cons.mp hm with heq | hm2
        · subst heq
          have hg := runActs_grow rest (applyAct s (Act.frameWrite Tgt.current w))
          constructor
          · obtain ⟨l, e⟩ := hg.grow.wt_grow
            rw [e]
            apply List.mem_append_left
            show w ∈ (applyAct s (Act.frameWrite Tgt.current w)).currentFrame.writeTasks
            rw [applyAct, Sched.updFrame]
            exact List.mem_append_right _ (List.mem_singleton.mpr rfl)
          · obtain ⟨q, e⟩ := hg.ff_or
            rw [e]
            apply bit_set_mono
            show (applyAct s (Act.frameWrite Tgt.current w)).currentFrame.flags &&& WRITE ≠ 0
            rw [applyAct, Sched.updFrame]
            exact bit_or_self_ne _ (by decide)
        · exact runActs_frameWrite w rest (applyAct s a) hb hm2

/-- A completed run of an action list containing scheduleMacrotask leaves
the task queued with MACROTASK_PENDING set. -/
theorem runActs_macroSet (u : Nat) : ∀ (acts : List Act) (s : Sched),
    (runActs acts s).2 = true → Act.scheduleMacrotask u ∈ acts →
    u ∈ (runActs acts s).1.macrotasks ∧
      (runActs acts s).1.flags &&& MACROTASK_PENDING ≠ 0
  | [], _, _, hm => absurd hm (List.not_mem_nil _)
  | a :: rest, s, hb, hm => by
      by_cases ha : a = Act.throwErr
      · rw [runActs, if_pos ha] at hb; cases hb
      · rw [runActs, if_neg ha] at hb ⊢
        rcases List.mem_cons.mp hm with heq | hm2
        · subst heq
          have hg := runActs_grow rest (applyAct s (Act.scheduleMacrotask u))
          constructor
          · obtain ⟨l, e⟩ := hg.mac_grow
            rw [e]
            apply List.mem_append_left
            show u ∈ (applyAct s (Act.scheduleMacrotask u)).macrotasks
            rw [applyAct, Sched.scheduleMacrotask]
            split <;> exact List.mem_append_right _ (List.mem_singleton.mpr rfl)
          · obtain ⟨p, _, e⟩ := hg.grow.flags_or
            rw [e]
            apply bit_set_mono
            show (applyAct s (Act.scheduleMacrotask u)).flags &&& MACROTASK_PENDING ≠ 0
            rw [applyAct, Sched.scheduleMacrotask]
            split
            · exact bit_or_self_ne _ (by decide)
            next hcond => exact hcond
        · exact runActs_macroSet u rest (applyAct s a) hb hm2

/-- A completed run of an action list containing a current-frame after
schedule leaves AFTER set. -/
theorem runActs_afterSet (u : Nat) : ∀ (acts : List Act) (s : Sched),
    (runActs acts s).2 = true → Act.frameAfter Tgt.current u ∈ acts →
    (runActs acts s).1.currentFrame.flags &&& AFTER ≠ 0
  | [], _, _, hm => absurd hm (List.not_mem_nil _)
  | a :: rest, s, hb, hm => by
      by_cases ha : a = Act.throwErr
      · rw [runActs, if_pos ha] at hb; cases hb
      · rw [runActs, if_neg ha] at hb ⊢
        rcases List.mem_cons.mp hm with heq | hm2
        · subst heq
          have hg := runActs_grow rest (applyAct s (Act.frameAfter Tgt.current u))
          obtain ⟨q, e⟩ := hg.ff_or
          rw [e]
          apply bit_set_mono
          show (applyAct s (Act.frameAfter Tgt.current u)).currentFrame.flags &&& AFTER ≠ 0
          rw [applyAct, Sched.updFrame]
          exact bit_or_self_ne _ (by decide)
        · exact runActs_afterSet u rest (applyAct s a) hb hm2

/-- Only a current-frame after schedule changes the current afterTasks. -/
theorem applyAct_after_eq (s : Sched) (a : Act) :
    (applyAct s a).currentFrame.afterTasks = s.currentFrame.afterTasks ∨
      ∃ u, a = Act.frameAfter Tgt.current u := by
  cases a with
  | scheduleMicrotask t =>
      left; rw [applyAct, Sched.scheduleMicrotask]; split <;> rfl
  | scheduleMacrotask t =>
      left; rw [applyAct, Sched.scheduleMacrotask]; split <;> rfl
  | frameWrite g t =>
      cases g with
      | current => left; rfl
      | next => left; rw [applyAct, Sched.updFrame, nextFrameArm_currentFrame]
  | framePrioWrite g r t =>
      cases g with
      | current => left; rfl
      | next => left; rw [applyAct, Sched.updFrame, nextFrameArm_currentFrame]
  | frameRead g t =>
      cases g with
      | current => left; rfl
      | next => left; rw [applyAct, Sched.updFrame, nextFrameArm_currentFrame]
  | frameAfter g t =>
      cases g with
      | current => right; exact ⟨t, rfl⟩
      | next => left; rw [applyAct, Sched.updFrame, nextFrameArm_currentFrame]
  | throwErr => left; rfl

/-- If running an action list changed the current afterTasks, the list holds
a current-frame after schedule. -/
theorem runActs_after_witness : ∀ (acts : List Act) (s : Sched),
    (runActs acts s).1.currentFrame.afterTasks ≠ s.currentFrame.afterTasks →
    ∃ u, Act.frameAfter Tgt.current u ∈ acts
  | [], _, hne => absurd rfl hne
  | a :: rest, s, hne => by
      by_cases ha : a = Act.throwErr
      · rw [runActs, if_pos ha] at hne; exact absurd rfl hne
      · rw [runActs, if_neg ha] at hne
        rcases applyAct_after_eq s a with hch | ⟨u, rfl⟩
        · obtain ⟨u, hu⟩ := runActs_after_witness rest (applyAct s a) (by rw [← hch] at hne; exact hne)
          exact ⟨u, List.mem_cons_of_mem a hu⟩
        · exact ⟨u, List.mem_cons_self _ _⟩

/-! The AFTER-phase invariant: the only way to change the current frame's
afterTasks is a current-frame after schedule, which also sets AFTER. -/

theorem ATight.atRefl (s : Sched) : ATight s s :=
  ⟨⟨[], (List.append_nil _).symm⟩, id, fun _ => rfl, fun hne => absurd rfl hne⟩

theorem ATight.atTrans {s1 s2 s3 : Sched} (a : ATight s1 s2) (b : ATight s2 s3) :
    ATight s1 s3 := by
  obtain ⟨l1, e1⟩ := a.at_grow
  obtain ⟨l2, e2⟩ := b.at_grow
  refine ⟨⟨l1 ++ l2, by rw [e2, e1, List.append_assoc]⟩, fun h => b.at_mono (a.at_mono h), ?_, ?_⟩
  · intro h
    have hl : l1 = [] ∧ l2 = [] := by
      have h2 : s1.currentFrame.afterTasks = s1.currentFrame.afterTasks ++ (l1 ++ l2) := by
        rw [← List.append_assoc, ← e1, ← e2, h]
      have := congrArg List.length h2
      simp at this
      exact this
    rw [hl.1, List.append_nil] at e1
    rw [hl.2, List.append_nil] at e2
    exact (b.at_tight e2).trans (a.at_tight e1)
  · intro h
    by_cases hc : s2.currentFrame.afterTasks = s1.currentFrame.afterTasks
    · exact b.at_set (by rw [hc]; exact h)
    · exact b.at_mono (a.at_set hc)

/-- A change leaving the current frame untouched satisfies the invariant. -/
theorem atight_of_curr_eq {s s' : Sched} (h : s'.currentFrame = s.currentFrame) :
    ATight s s' := by
  refine ⟨⟨[], ?_⟩, ?_, ?_, ?_⟩ <;> rw [h]
  · rw [List.append_nil]
  · exact id
  · exact fun _ => rfl
  · intro hne; exact absurd rfl hne

/-- ORing flag bits outside AFTER, with afterTasks untouched, satisfies the
invariant. -/
theorem atight_of_or {s s' : Sched} (q : Nat) (hq : q &&& AFTER = 0)
    (hf : s'.currentFrame.flags = s.currentFrame.flags ||| q)
    (ha : s'.currentFrame.afterTasks = s.currentFrame.afterTasks) : ATight s s' := by
  refine ⟨⟨[], by rw [ha, List.append_nil]⟩, ?_, ?_, ?_⟩
  · intro h; rw [hf]; exact bit_set_mono q h
  · intro _; rw [hf]; exact bit_or_and_disj _ hq
  · intro hne; exact absurd ha hne

theorem applyAct_atight (s : Sched) (a : Act) : ATight s (applyAct s a) := by
  cases a with
  | scheduleMicrotask t =>
      apply atight_of_curr_eq
      rw [applyAct, Sched.scheduleMicrotask]; split <;> rfl
  | scheduleMacrotask t =>
      apply atight_of_curr_eq
      rw [applyAct, Sched.scheduleMacrotask]; split <;> rfl
  | frameWrite g t =>
      cases g with
      | current => exact atight_of_or WRITE (by decide) rfl rfl
      | next =>
          apply atight_of_curr_eq
          rw [applyAct, Sched.updFrame]
          exact nextFrameArm_currentFrame s
  | framePrioWrite g r t =>
      cases g with
      | current => exact atight_of_or WRITE_PRIO (by decide) rfl rfl
      | next =>
          apply atight_of_curr_eq
          rw [applyAct, Sched.updFrame]
          exact nextFrameArm_currentFrame s
  | frameRead g t =>
      cases g with
      | current => exact atight_of_or READ (by decide) rfl rfl
      | next =>
          apply atight_of_curr_eq
          rw [applyAct, Sched.updFrame]
          exact nextFrameArm_currentFrame s
  | frameAfter g t =>
      cases g with
      | current =>
          refine ⟨⟨[t], rfl⟩, ?_, ?_, ?_⟩
          · intro _
            exact bit_or_self_ne _ (by decide)
          · intro h
            have hlen := congrArg List.length h
            simp [applyAct, Sched.updFrame, Frame.after] at hlen
          · intro _
            exact bit_or_self_ne _ (by decide)
      | next =>
          apply atight_of_curr_eq
          rw [applyAct, Sched.updFrame]
          exact nextFrameArm_currentFrame s
  | throwErr => exact ATight.atRefl s

theorem runActs_atight : ∀ (acts : List Act) (s : Sched), ATight s (runActs acts s).1
  | [], s => ATight.atRefl s
  | a :: rest, s => by
      rw [runActs]
      split
      · exact ATight.atRefl s
      · exact (applyAct_atight s a).atTrans (runActs_atight rest _)

theorem runTask_atight (env : Env) (tag : PTag) (t : Nat) (s s' : Sched)
    (h : (runTask env tag t s).endSt = some s') : ATight s s' := by
  rw [runTask] at h
  rcases hr : runActs (env t) s with ⟨s1, b⟩
  rw [hr] at h
  have hg := runActs_atight (env t) s
  rw [hr] at hg
  cases b <;> rw [Res.endSt] at h <;> cases h <;> exact hg

theorem afterSweep_atight (env : Env) :
    ∀ (fuel i : Nat) (s s' : Sched), (afterSweep env fuel i s).endSt = some s' → ATight s s'
  | 0, _, _, _, h => by rw [afterSweep] at h; cases h
  | fuel + 1, i, s, s', h => by
      rw [afterSweep] at h
      split at h
      · rcases Res.endSt_bind h with ⟨tr, he⟩ | ⟨s2, tr, he, h2⟩
        · exact runTask_atight env PTag.afterT _ s s' (by rw [he]; rfl)
        · exact (runTask_atight env PTag.afterT _ s s2 (by rw [he]; rfl)).atTrans
            (afterSweep_atight env fuel (i + 1) s2 s' h2)
      · rw [Res.endSt] at h; cases h; exact ATight.atRefl s

/-- The after sweep's trace: the run events of the final array from index i
on (the array only grows, and the loop re-reads the live length). -/
theorem afterSweep_trace (env : Env) :
    ∀ (fuel i : Nat) (s sa : Sched) (ta : List Ev),
      afterSweep env fuel i s = Res.ok sa ta →
      ta = (sa.currentFrame.afterTasks.drop i).map (Ev.run PTag.afterT)
  | 0, _, _, _, _, h => by rw [afterSweep] at h; cases h
  | fuel + 1, i, s, sa, ta, h => by
      rw [afterSweep] at h
      split at h
      next hlt =>
        obtain ⟨s2, tr1, tr2, h1, h2, rfl⟩ := Res.bind_eq_ok h
        obtain ⟨_, rfl⟩ := runTask_eq_ok h1
        have e2 : ∃ l, s2.currentFrame.afterTasks = s.currentFrame.afterTasks ++ l :=
          (runTask_grow env PTag.afterT _ s s2 (by rw [h1]; rfl)).grow.at_grow
        have e3 : ∃ l, sa.currentFrame.afterTasks = s2.currentFrame.afterTasks ++ l :=
          (afterSweep_grow env fuel (i + 1) s2 sa (by rw [h2]; rfl)).grow.at_grow
        obtain ⟨l2, e2⟩ := e2
        obtain ⟨l3, e3⟩ := e3
        have ea : sa.currentFrame.afterTasks = s.currentFrame.afterTasks ++ (l2 ++ l3) := by
          rw [e3, e2, List.append_assoc]
        have hlt' : i < sa.currentFrame.afterTasks.length := by
          rw [ea, List.length_append]
          omega
        have hgd := (List.getElem_of_eq ea hlt').trans
          ((List.getElem_append_left hlt).trans (List.getD_eq_getElem _ 0 hlt).symm)
        rw [afterSweep_trace env fuel (i + 1) s2 sa tr2 h2,
          List.drop_eq_getElem_cons hlt', List.map_cons, hgd]
        rfl
      next hge =>
        rw [Res.ok.injEq] at h
        obtain ⟨rfl, rfl⟩ := h
        rw [List.drop_eq_nil_of_le (Nat.le_of_not_lt hge), List.map_nil]

/-- If some task in the swept range schedules a current-frame after task,
AFTER is set when the sweep completes. -/
theorem afterSweep_sets (env : Env) :
    ∀ (fuel i : Nat) (s sa : Sched) (ta : List Ev),
      afterSweep env fuel i s = Res.ok sa ta →
      ∀ x ∈ s.currentFrame.afterTasks.drop i,
        (∃ u, Act.frameAfter Tgt.current u ∈ env x) →
        sa.currentFrame.flags &&& AFTER ≠ 0
  | 0, _, _, _, _, h => by rw [afterSweep] at h; cases h
  | fuel + 1, i, s, sa, ta, h => by
      rw [afterSweep] at h
      split at h
      next hlt =>
        obtain ⟨s2, tr1, tr2, h1, h2, rfl⟩ := Res.bind_eq_ok h
        intro x hx hu
        rw [List.drop_eq_getElem_cons hlt] at hx
        rcases List.mem_cons.mp hx with heq | hx2
        · obtain ⟨hr, _⟩ := runTask_eq_ok h1
          obtain ⟨u, hu⟩ := hu
          have hgd : s.currentFrame.afterTasks.getD i 0 = x := by
            rw [List.getD_eq_getElem _ 0 hlt, heq]
          rw [hgd] at hr
          have hset : s2.currentFrame.flags &&& AFTER ≠ 0 := by
            have := runActs_afterSet u (env x) s (by rw [hr]) (hu)
            rw [hr] at this
            exact this
          exact (afterSweep_atight env fuel (i + 1) s2 sa (by rw [h2]; rfl)).at_mono hset
        · obtain ⟨l2, e2⟩ :=
            (runTask_grow env PTag.afterT _ s s2 (by rw [h1]; rfl)).grow.at_grow
          have hx3 : x ∈ s2.currentFrame.afterTasks.drop (i + 1) := by
            rw [e2, List.drop_append_of_le_length (by omega)]
            exact List.mem_append_left _ hx2
          exact afterSweep_sets env fuel (i + 1) s2 sa tr2 h2 x hx3 hu
      next hge =>
        intro x hx _
        rw [List.drop_eq_nil_of_le (Nat.le_of_not_lt hge)] at hx
        exact absurd hx (List.not_mem_nil x)

/-- If the sweep changed afterTasks, some task now in the array schedules a
current-frame after task. -/
theorem afterSweep_witness (env : Env) :
    ∀ (fuel i : Nat) (s sa : Sched) (ta : List Ev),
      afterSweep env fuel i s = Res.ok sa ta →
      sa.currentFrame.afterTasks ≠ s.currentFrame.afterTasks →
      ∃ x ∈ sa.currentFrame.afterTasks, ∃ u, Act.frameAfter Tgt.current u ∈ env x
  | 0, _, _, _, _, h => by rw [afterSweep] at h; cases h
  | fuel + 1, i, s, sa, ta, h => by
      rw [afterSweep] at h
      split at h
      next hlt =>
        obtain ⟨s2, tr1, tr2, h1, h2, rfl⟩ := Res.bind_eq_ok h
        intro hne
        by_cases hch : s2.currentFrame.afterTasks = s.currentFrame.afterTasks
        · exact afterSweep_witness env fuel (i + 1) s2 sa tr2 h2 (by rw [hch]; exact hne)
        · obtain ⟨hr, _⟩ := runTask_eq_ok h1
          obtain ⟨u, hu⟩ := runActs_after_witness (env _) s (by rw [hr]; exact hch)
          refine ⟨s.currentFrame.afterTasks.getD i 0, ?_, u, hu⟩
          obtain ⟨l2, e2⟩ :=
            (runTask_grow env PTag.afterT _ s s2 (by rw [h1]; rfl)).grow.at_grow
          obtain ⟨l3, e3⟩ :=
            (afterSweep_grow env fuel (i + 1) s2 sa (by rw [h2]; rfl)).grow.at_grow
          rw [e3, e2]
          apply List.mem_append_left
          apply List.mem_append_left
          rw [List.getD_eq_getElem _ 0 hlt]
          exact List.getElem_mem hlt
      next hge =>
        rw [Res.ok.injEq] at h
        obtain ⟨rfl, rfl⟩ := h
        intro hne
        exact absurd rfl hne

/-- An AFTER loop whose array holds a task that always schedules another
current-frame after task never completes (each sweep re-triggers AFTER). -/
theorem afterLoop_stuck (env : Env) :
    ∀ (fuel : Nat) (s : Sched),
      (∃ x ∈ s.currentFrame.afterTasks, ∃ u, Act.frameAfter Tgt.current u ∈ env x) →
      s.currentFrame.flags &&& AFTER ≠ 0 →
      ∀ (s' : Sched) (tr : List Ev), afterLoop env fuel s ≠ Res.ok s' tr
  | 0, s, _, _, s', tr => by rw [afterLoop]; intro h; cases h
  | fuel + 1, s, hw, hA, s', tr => by
      rw [afterLoop, if_pos hA]
      intro h
      obtain ⟨s1, tr1, tr2, h1, h2, _⟩ := Res.bind_eq_ok h
      obtain ⟨ta, hsw, _⟩ := Res.pre_eq_ok h1
      obtain ⟨x, hx, u, hu⟩ := hw
      have hset : s1.currentFrame.flags &&& AFTER ≠ 0 :=
        afterSweep_sets env fuel 0 _ s1 ta hsw x hx ⟨u, hu⟩
      have hx2 : x ∈ s1.currentFrame.afterTasks := by
        obtain ⟨l, e⟩ := (afterSweep_grow env fuel 0 _ s1 (by rw [hsw]; rfl)).grow.at_grow
        rw [e]
        exact List.mem_append_left _ hx
      exact afterLoop_stuck env fuel s1 ⟨x, hx2, u, hu⟩ hset s' tr2 h2

/-- An AFTER loop entered with AFTER clear does nothing. -/
theorem afterLoop_done (env : Env) (fuel : Nat) (s s' : Sched) (tr : List Ev)
    (hA : s.currentFrame.flags &&& AFTER = 0)
    (h : afterLoop env fuel s = Res.ok s' tr) : s' = s ∧ tr = [] := by
  cases fuel with
  | zero => rw [afterLoop] at h; cases h
  | succ g =>
      rw [afterLoop, if_neg (by rw [hA]; exact fun hc => hc rfl)] at h
      rw [Res.ok.injEq] at h
      exact ⟨h.1.symm, h.2.symm⟩

/-- A completed AFTER phase is exactly one sweep of the batch present at its
start, in arrival order, leaving the (undetached) array unchanged. -/
theorem afterLoop_ok_once (env : Env) (fuel : Nat) (s s3 : Sched) (trB : List Ev)
    (h : afterLoop env fuel s = Res.ok s3 trB) :
    (s.currentFrame.flags &&& AFTER = 0 ∧ trB = [] ∧ s3 = s) ∨
    (s.currentFrame.flags &&& AFTER ≠ 0 ∧
      trB = Ev.afterPhase :: s.currentFrame.afterTasks.map (Ev.run PTag.afterT) ∧
      s3.currentFrame.afterTasks = s.currentFrame.afterTasks) := by
  cases fuel with
  | zero => rw [afterLoop] at h; cases h
  | succ g =>
      rw [afterLoop] at h
      split at h
      next hA =>
        right
        obtain ⟨s1, tr1, tr2, h1, h2, rfl⟩ := Res.bind_eq_ok h
        obtain ⟨ta, hsw, rfl⟩ := Res.pre_eq_ok h1
        by_cases hch : s1.currentFrame.afterTasks =
            (clearFrameFlag s AFTER).currentFrame.afterTasks
        · have hA1 : s1.currentFrame.flags &&& AFTER = 0 := by
            have ht := (afterSweep_atight env g 0 _ s1 (by rw [hsw]; rfl)).at_tight hch
            rw [ht]
            exact bit_clear_and_self _ _
          obtain ⟨rfl, rfl⟩ := afterLoop_done env g s1 s3 tr2 hA1 h2
          have hta : ta = s.currentFrame.afterTasks.map (Ev.run PTag.afterT) := by
            rw [afterSweep_trace env g 0 _ s3 ta hsw]
            rw [List.drop_zero, hch]
            rfl
          refine ⟨hA, ?_, ?_⟩
          · rw [List.append_nil, hta]
          · exact hch
        · obtain ⟨x, hx, u, hu⟩ := afterSweep_witness env g 0 _ s1 ta hsw hch
          have hset : s1.currentFrame.flags &&& AFTER ≠ 0 :=
            (afterSweep_atight env g 0 _ s1 (by rw [hsw]; rfl)).at_set hch
          exact absurd h2 (afterLoop_stuck env g s1 ⟨x, hx, u, hu⟩ hset s3 tr2)
      next hA =>
        left
        rw [Res.ok.injEq] at h
        refine ⟨?_, h.2.symm, h.1.symm⟩
        by_contra hc
        exact hA hc

/-! Exit conditions, event shapes and run inclusion. -/

/-- A set WRITE bit sets WRITE_ANY. -/
theorem bit_write_writeAny {f : Nat} (h : f &&& WRITE ≠ 0) : f &&& WRITE_ANY ≠ 0 :=
  bit_and_union.mpr (Or.inl h)

/-- When the READ loop completes, READ is clear. -/
theorem readLoop_ok_flags (env : Env) :
    ∀ (fuel : Nat) (s s' : Sched) (tr : List Ev),
      readLoop env fuel s = Res.ok s' tr → s'.currentFrame.flags &&& READ = 0
  | 0, _, _, _, h => by rw [readLoop] at h; cases h
  | fuel + 1, s, s', tr, h => by
      rw [readLoop] at h
      split at h
      · obtain ⟨s1, tr1, tr2, h1, h2, rfl⟩ := Res.bind_eq_ok h
        exact readLoop_ok_flags env fuel s1 s' tr2 h2
      next hc =>
        rw [Res.ok.injEq] at h
        rw [← h.1]
        by_contra hne
        exact hc hne

/-- When the alternation completes, both WRITE_ANY and READ are clear. -/
theorem altLoop_ok_flags (env : Env) :
    ∀ (fuel : Nat) (s s' : Sched) (tr : List Ev),
      altLoop env fuel s = Res.ok s' tr →
      s'.currentFrame.flags &&& WRITE_ANY = 0 ∧ s'.currentFrame.flags &&& READ = 0
  | 0, _, _, _, h => by rw [altLoop] at h; cases h
  | fuel + 1, s, s', tr, h => by
      rw [altLoop] at h
      obtain ⟨s1, tr1, tr2, h1, h2, rfl⟩ := Res.bind_eq_ok h
      obtain ⟨trW, hW, rfl⟩ := Res.pre_eq_ok h1
      obtain ⟨s2, tr3, tr4, h3, h4, rfl⟩ := Res.bind_eq_ok h2
      obtain ⟨trR, hRl, rfl⟩ := Res.pre_eq_ok h3
      split at h4
      · exact altLoop_ok_flags env fuel s2 s' tr4 h4
      next hc =>
        rw [Res.ok.injEq] at h4
        rw [← h4.1]
        constructor
        · by_contra hne
          exact hc hne
        · exact readLoop_ok_flags env fuel s1 s2 trR hRl

/-- A completed run of a batch containing a task whose actions include a
current-frame plain write leaves the write queued with WRITE set. -/
theorem runSeq_frameWrite (env : Env) (tag : PTag) {r w : Nat} :
    ∀ (l : List Nat) (s s' : Sched) (tr : List Ev),
      runSeq env tag l s = Res.ok s' tr → r ∈ l →
      Act.frameWrite Tgt.current w ∈ env r →
      w ∈ s'.currentFrame.writeTasks ∧ s'.currentFrame.flags &&& WRITE ≠ 0
  | [], _, _, _, _, hm, _ => absurd hm (List.not_mem_nil r)
  | t :: ts, s, s', tr, h, hm, hw => by
      rw [runSeq] at h
      obtain ⟨s1, tr1, tr2, h1, h2, rfl⟩ := Res.bind_eq_ok h
      rcases List.mem_cons.mp hm with heq | hm2
      · subst heq
        obtain ⟨hr, _⟩ := runTask_eq_ok h1
        have hf := runActs_frameWrite w (env r) s (by rw [hr]) hw
        rw [hr] at hf
        have hg := runSeq_grow env tag ts s1 s' (by rw [h2]; rfl)
        constructor
        · obtain ⟨l1, e1⟩ := hg.grow.wt_grow
          rw [e1]
          exact List.mem_append_left _ hf.1
        · obtain ⟨q, e⟩ := hg.ff_or
          rw [e]
          exact bit_set_mono q hf.2
      · exact runSeq_frameWrite env tag ts s1 s' tr2 h2 hm2 hw

/-- The plain write sweep runs every task present in the live array when it
starts (the array only grows while it runs). -/
theorem writeSweep_runs (env : Env) :
    ∀ (fuel i : Nat) (s s' : Sched) (tr : List Ev),
      writeSweep env fuel i s = Res.ok s' tr →
      ∀ x ∈ s.currentFrame.writeTasks.drop i, Ev.run PTag.writeT x ∈ tr
  | 0, _, _, _, _, h => by rw [writeSweep] at h; cases h
  | fuel + 1, i, s, s', tr, h => by
      rw [writeSweep] at h
      split at h
      next hlt =>
        obtain ⟨s2, tr1, tr2, h1, h2, rfl⟩ := Res.bind_eq_ok h
        obtain ⟨_, rfl⟩ := runTask_eq_ok h1
        intro x hx
        rw [List.drop_eq_getElem_cons hlt] at hx
        rcases List.mem_cons.mp hx with heq | hx2
        · apply List.mem_append_left
          rw [List.getD_eq_getElem _ 0 hlt, ← heq]
          exact List.mem_singleton.mpr rfl
        · apply List.mem_append_right
          obtain ⟨l2, e2⟩ :=
            (runTask_grow env PTag.writeT _ s s2 (by rw [h1]; rfl)).grow.wt_grow
          have hx3 : x ∈ s2.currentFrame.writeTasks.drop (i + 1) := by
            rw [e2, List.drop_append_of_le_length (by omega)]
            exact List.mem_append_left _ hx2
          exact writeSweep_runs env fuel (i + 1) s2 s' tr2 h2 x hx3
      next hge =>
        rw [Res.ok.injEq] at h
        obtain ⟨rfl, rfl⟩ := h
        intro x hx
        rw [List.drop_eq_nil_of_le (Nat.le_of_not_lt hge)] at hx
        exact absurd hx (List.not_mem_nil x)

/-- Events of a completed batch are run events of its tag. -/
theorem runSeq_events (env : Env) (tag : PTag) (l : List Nat) (s s' : Sched)
    (tr : List Ev) (h : runSeq env tag l s = Res.ok s' tr) :
    ∀ e ∈ tr, ∃ t, e = Ev.run tag t := by
  rw [runSeq_trace env tag l s s' tr h]
  intro e he
  obtain ⟨t, _, rfl⟩ := List.mem_map.mp he
  exact ⟨t, rfl⟩

/-- Events of a completed priority sweep are prioT runs. -/
theorem prioSweep_events (env : Env) :
    ∀ (fuel i : Nat) (s s' : Sched) (tr : List Ev),
      prioSweep env fuel i s = Res.ok s' tr →
      ∀ e ∈ tr, ∃ t, e = Ev.run PTag.prioT t
  | 0, _, _, _, _, h => by rw [prioSweep] at h; cases h
  | fuel + 1, i, s, s', tr, h => by
      rw [prioSweep] at h
      split at h
      · rcases hg : s.currentFrame.writeTaskGroups.getD i none with _ | g <;> rw [hg] at h
        · exact prioSweep_events env fuel (i + 1) s s' tr h
        · obtain ⟨s2, tr1, tr2, h1, h2, rfl⟩ := Res.bind_eq_ok h
          intro e he
          rcases List.mem_append.mp he with he1 | he2
          · exact runSeq_events env PTag.prioT g _ s2 tr1 h1 e he1
          · exact prioSweep_events env fuel (i + 1) s2 s' tr2 h2 e he2
      · rw [Res.ok.injEq] at h
        obtain ⟨rfl, rfl⟩ := h
        intro e he
        exact absurd he (List.not_mem_nil e)

/-- Events of a completed plain write sweep are writeT runs. -/
theorem writeSweep_events (env : Env) :
    ∀ (fuel i : Nat) (s s' : Sched) (tr : List Ev),
      writeSweep env fuel i s = Res.ok s' tr →
      ∀ e ∈ tr, ∃ t, e = Ev.run PTag.writeT t
  | 0, _, _, _, _, h => by rw [writeSweep] at h; cases h
  | fuel + 1, i, s, s', tr, h => by
      rw [writeSweep] at h
      split at h
      · obtain ⟨s2, tr1, tr2, h1, h2, rfl⟩ := Res.bind_eq_ok h
        obtain ⟨_, rfl⟩ := runTask_eq_ok h1
        intro e he
        rcases List.mem_append.mp he with he1 | he2
        · rw [List.mem_singleton.mp he1]
          exact ⟨_, rfl⟩
        · exact writeSweep_events env fuel (i + 1) s2 s' tr2 h2 e he2
      · rw [Res.ok.injEq] at h
        obtain ⟨rfl, rfl⟩ := h
        intro e he
        exact absurd he (List.not_mem_nil e)

/-- Events of a completed READ loop are readT runs. -/
theorem readLoop_events (env : Env) :
    ∀ (fuel : Nat) (s s' : Sched) (tr : List Ev),
      readLoop env fuel s = Res.ok s' tr →
      ∀ e ∈ tr, ∃ t, e = Ev.run PTag.readT t
  | 0, _, _, _, h => by rw [readLoop] at h; cases h
  | fuel + 1, s, s', tr, h => by
      rw [readLoop] at h
      split at h
      · obtain ⟨s1, tr1, tr2, h1, h2, rfl⟩ := Res.bind_eq_ok h
        intro e he
        rcases List.mem_append.mp he with he1 | he2
        · exact runSeq_events env PTag.readT _ _ s1 tr1 h1 e he1
        · exact readLoop_events env fuel s1 s' tr2 h2 e he2
      · rw [Res.ok.injEq] at h
        obtain ⟨rfl, rfl⟩ := h
        intro e he
        exact absurd he (List.not_mem_nil e)

/-- Events of a completed WRITE_ANY loop are prioT or writeT runs. -/
theorem writeAnyLoop_events (env : Env) :
    ∀ (fuel : Nat) (s s' : Sched) (tr : List Ev),
      writeAnyLoop env fuel s = Res.ok s' tr →
      ∀ e ∈ tr, (∃ t, e = Ev.run PTag.prioT t) ∨ (∃ t, e = Ev.run PTag.writeT t)
  | 0, _, _, _, h => by rw [writeAnyLoop] at h; cases h
  | fuel + 1, s, s', tr, h => by
      rw [writeAnyLoop] at h
      split at h
      · obtain ⟨s1, tr1, trX, h1, h2, rfl⟩ := Res.bind_eq_ok h
        obtain ⟨s2, tr2, tr3, h3, h4, rfl⟩ := Res.bind_eq_ok h2
        intro e he
        rcases List.mem_append.mp he with he1 | he23
        · split at h1
          · exact Or.inl (prioSweep_events env fuel 0 _ s1 tr1 h1 e he1)
          · rw [Res.ok.injEq] at h1
            rw [← h1.2] at he1
            exact absurd he1 (List.not_mem_nil e)
        · rcases List.mem_append.mp he23 with he2 | he3
          · split at h3
            · exact Or.inr (writeSweep_events env fuel 0 _ s2 tr2 h3 e he2)
            · rw [Res.ok.injEq] at h3
              rw [← h3.2] at he2
              exact absurd he2 (List.not_mem_nil e)
          · exact writeAnyLoop_events env fuel s2 s' tr3 h4 e he3
      · rw [Res.ok.injEq] at h
        obtain ⟨rfl, rfl⟩ := h
        intro e he
        exact absurd he (List.not_mem_nil e)

/-- Events of a completed alternation are phase markers or prio/write/read
runs; in particular no after-task run. -/
theorem altLoop_events (env : Env) :
    ∀ (fuel : Nat) (s s' : Sched) (tr : List Ev),
      altLoop env fuel s = Res.ok s' tr →
      ∀ e ∈ tr, e = Ev.writePhase ∨ e = Ev.readPhase ∨
        (∃ t, e = Ev.run PTag.prioT t) ∨ (∃ t, e = Ev.run PTag.writeT t) ∨
        (∃ t, e = Ev.run PTag.readT t)
  | 0, _, _, _, h => by rw [altLoop] at h; cases h
  | fuel + 1, s, s', tr, h => by
      rw [altLoop] at h
      obtain ⟨s1, tr1, tr2, h1, h2, rfl⟩ := Res.bind_eq_ok h
      obtain ⟨trW, hW, rfl⟩ := Res.pre_eq_ok h1
      obtain ⟨s2, tr3, tr4, h3, h4, rfl⟩ := Res.bind_eq_ok h2
      obtain ⟨trR, hRl, rfl⟩ := Res.pre_eq_ok h3
      intro e he
      rcases List.mem_append.mp he with he1 | he2
      · rcases List.mem_cons.mp he1 with rfl | heW
        · exact Or.inl rfl
        · rcases writeAnyLoop_events env fuel s s1 trW hW e heW with h | h
          · exact Or.inr (Or.inr (Or.inl h))
          · exact Or.inr (Or.inr (Or.inr (Or.inl h)))
      · rcases List.mem_append.mp he2 with he3 | he4
        · rcases List.mem_cons.mp he3 with rfl | heR
          · exact Or.inr (Or.inl rfl)
          · exact Or.inr (Or.inr (Or.inr (Or.inr
              (readLoop_events env fuel s1 s2 trR hRl e heR))))
        · split at h4
          · exact altLoop_events env fuel s2 s' tr4 h4 e he4
          · rw [Res.ok.injEq] at h4
            rw [← h4.2] at he4
            exact absurd he4 (List.not_mem_nil e)

/-- No event of a completed alternation is an after-task run. -/
theorem altLoop_no_after (env : Env) (fuel : Nat) (s s' : Sched) (tr : List Ev)
    (h : altLoop env fuel s = Res.ok s' tr) :
    ∀ e ∈ tr, ∀ t, e ≠ Ev.run PTag.afterT t := by
  intro e he t
  rcases altLoop_events env fuel s s' tr h e he with rfl | rfl | ⟨u, rfl⟩ | ⟨u, rfl⟩ | ⟨u, rfl⟩ <;>
    intro hc <;> simp at hc

/-- A WRITE_ANY loop entered with WRITE set runs every task then queued in
writeTasks (the WRITE branch sweeps the whole live array). -/
theorem writeAnyLoop_runs (env : Env) :
    ∀ (fuel : Nat) (s s' : Sched) (tr : List Ev),
      writeAnyLoop env fuel s = Res.ok s' tr →
      s.currentFrame.flags &&& WRITE ≠ 0 →
      ∀ x ∈ s.currentFrame.writeTasks, Ev.run PTag.writeT x ∈ tr
  | 0, _, _, _, h, _, _, _ => by rw [writeAnyLoop] at h; cases h
  | fuel + 1, s, s', tr, h, hWr, x, hx => by
      rw [writeAnyLoop] at h
      split at h
      · obtain ⟨s1, tr1, trX, h1, h2, rfl⟩ := Res.bind_eq_ok h
        obtain ⟨s2, tr2, tr3, h3, h4, rfl⟩ := Res.bind_eq_ok h2
        have hstep : s1.currentFrame.flags &&& WRITE ≠ 0 ∧
            x ∈ s1.currentFrame.writeTasks := by
          split at h1
          · have hg := prioSweep_grow env fuel 0 _ s1 (by rw [h1]; rfl)
            constructor
            · obtain ⟨q, e⟩ := hg.ff_or
              rw [e]
              apply bit_set_mono
              show bclear s.currentFrame.flags WRITE_PRIO &&& WRITE ≠ 0
              rw [bit_clear_and_disj _ (by decide : WRITE_PRIO &&& WRITE = 0)]
              exact hWr
            · obtain ⟨l, e⟩ := hg.grow.wt_grow
              rw [e]
              exact List.mem_append_left _ hx
          · rw [Res.ok.injEq] at h1
            rw [← h1.1]
            exact ⟨hWr, hx⟩
        split at h3
        · apply List.mem_append_right
          apply List.mem_append_left
          exact writeSweep_runs env fuel 0 _ s2 tr2 h3 x hstep.2
        next hc => exact absurd hstep.1 hc
      next hc => exact absurd (bit_write_writeAny hWr) hc

/-- Decomposition of a completed frame flush into its alternation and after
phases, and its exit bookkeeping. -/
theorem frameFlush_split (env : Env) (fuel : Nat) (s s' : Sched) (tr : List Ev)
    (h : frameFlush env fuel s = Res.ok s' tr) :
    ∃ s2 s3 trA trB, altLoop env fuel (frameEntry s) = Res.ok s2 trA ∧
      afterLoop env fuel s2 = Res.ok s3 trB ∧ tr = trA ++ trB ∧
      s' = { clearSchedFlag s3 RUNNING with clock := s3.clock + 1 } := by
  rw [frameFlush] at h
  obtain ⟨s2, trA, trX, h1, h2, rfl⟩ := Res.bind_eq_ok h
  obtain ⟨s3, trB, trY, h3, h4, rfl⟩ := Res.bind_eq_ok h2
  rw [Res.ok.injEq] at h4
  exact ⟨s2, s3, trA, trB, h1, h3, by rw [← h4.2, List.append_nil], h4.1.symm⟩

/-- Core of the alternation ordering claim: if a read task of the first read
phase schedules a plain current-frame write, the trace shows a second write
phase and then a second read phase, the new write running in the former. -/
theorem altLoop_second_pass (env : Env) {r w : Nat} :
    ∀ (fuel : Nat) (s s2 : Sched) (trA : List Ev),
      altLoop env fuel s = Res.ok s2 trA →
      r ∈ s.currentFrame.readTasks.getD [] →
      s.currentFrame.flags &&& READ ≠ 0 →
      Act.frameWrite Tgt.current w ∈ env r →
      ∃ t1 t2 t3 t4, trA = Ev.writePhase :: t1 ++ Ev.readPhase :: t2 ++
        Ev.writePhase :: t3 ++ Ev.readPhase :: t4 ∧ Ev.run PTag.writeT w ∈ t3
  | 0, _, _, _, h, _, _, _ => by rw [altLoop] at h; cases h
  | fuel + 1, s, s2, trA, h, hr, hR, hw => by
      rw [altLoop] at h
      obtain ⟨s1, trP1, tr2, h1, h2, rfl⟩ := Res.bind_eq_ok h
      obtain ⟨trW, hWload, rfl⟩ := Res.pre_eq_ok h1
      obtain ⟨s2', tr3, tr4, h3, h4, rfl⟩ := Res.bind_eq_ok h2
      obtain ⟨trR, hRl, rfl⟩ := Res.pre_eq_ok h3
      have g1 := writeAnyLoop_grow env fuel s s1 (by rw [hWload]; rfl)
      have hr1 : r ∈ s1.currentFrame.readTasks.getD [] := by
        obtain ⟨l, e⟩ := g1.rt_grow
        rw [e]
        exact List.mem_append_left _ hr
      have hR1 : s1.currentFrame.flags &&& READ ≠ 0 :=
        g1.ff_pres READ (by decide) hR
      cases fuel with
      | zero => rw [readLoop] at hRl; cases hRl
      | succ m =>
          rw [readLoop, if_pos hR1] at hRl
          obtain ⟨sB, trR0, trR1, hseq, hrl2, rfl⟩ := Res.bind_eq_ok hRl
          have hB := runSeq_frameWrite env PTag.readT _ _ sB trR0 hseq hr1 hw
          have g2 := readLoop_grow env m sB s2' (by rw [hrl2]; rfl)
          have hW2 : s2'.currentFrame.flags &&& WRITE ≠ 0 :=
            g2.ff_pres WRITE (by decide) hB.2
          have hwt2 : w ∈ s2'.currentFrame.writeTasks := by
            obtain ⟨l, e⟩ := g2.grow.wt_grow
            rw [e]
            exact List.mem_append_left _ hB.1
          split at h4
          · cases hm : (m + 1) with
            | zero => cases hm
            | succ mm =>
                rw [altLoop] at h4
                obtain ⟨s3', trQ1, trQ2, h5, h6, rfl⟩ := Res.bind_eq_ok h4
                obtain ⟨trW2, hWl2, rfl⟩ := Res.pre_eq_ok h5
                obtain ⟨s4', trQ3, trQ4, h7, h8, rfl⟩ := Res.bind_eq_ok h6
                obtain ⟨trR2, hRl2, rfl⟩ := Res.pre_eq_ok h7
                refine ⟨trW, trR0 ++ trR1, trW2, trR2 ++ trQ4, ?_, ?_⟩
                · simp [List.append_assoc]
                · exact writeAnyLoop_runs env _ s2' s3' trW2 hWl2 hW2 w hwt2
          next hc => exact absurd (bit_write_writeAny hW2) hc

/-! Flush-level bookkeeping lemmas, the step relation and reachability. -/

/-- Inversion of a thrown bind. -/
theorem Res.bind_eq_thrown {r : Res} {k : Sched → Res} {s' : Sched} {tr' : List Ev}
    (h : r.bind k = Res.thrown s' tr') :
    r = Res.thrown s' tr' ∨
      (∃ s1 tr1 tr2, r = Res.ok s1 tr1 ∧ k s1 = Res.thrown s' tr2 ∧ tr' = tr1 ++ tr2) := by
  cases r with
  | ok s tr =>
      rw [Res.bind] at h
      cases hk : k s with
      | ok t u => rw [hk, Res.app] at h; cases h
      | thrown t u => rw [hk, Res.app] at h; cases h; exact Or.inr ⟨s, tr, u, rfl, hk, rfl⟩
      | out => rw [hk, Res.app] at h; cases h
  | thrown s tr => rw [Res.bind] at h; cases h; exact Or.inl rfl
  | out => rw [Res.bind] at h; cases h

/-- Grow keeps the per-domain RUNNING bits. -/
theorem Grow.domrun {s s' : Sched} (g : Grow s s') :
    s'.flags &&& DOMRUN = s.flags &&& DOMRUN := by
  obtain ⟨p, hp, e⟩ := g.flags_or
  rw [e]
  exact bit_or_and_disj _ (bit_disj_union hp).2

/-- The microtask flush increments the clock by exactly one on completion. -/
theorem microFlush_ok_clock (env : Env) (fuel : Nat) (s s' : Sched) (tr : List Ev)
    (h : microFlush env fuel s = Res.ok s' tr) : s'.clock = s.clock + 1 := by
  rw [microFlush] at h
  obtain ⟨s2, tr1, tr2, h1, h2, rfl⟩ := Res.bind_eq_ok h
  rw [Res.ok.injEq] at h2
  rw [← h2.1]
  have hg := microLoop_grow env fuel _ _ s2 (by rw [h1]; rfl)
  show s2.clock + 1 = s.clock + 1
  rw [hg.grow.clock_eq]

/-- The macrotask flush increments the clock by exactly one on completion. -/
theorem macroFlush_ok_clock (env : Env) (s s' : Sched) (tr : List Ev)
    (h : macroFlush env s = Res.ok s' tr) : s'.clock = s.clock + 1 := by
  rw [macroFlush] at h
  split at h
  · rw [Res.ok.injEq] at h
    rw [← h.1]
    rfl
  · obtain ⟨s2, tr1, tr2, h1, h2, rfl⟩ := Res.bind_eq_ok h
    rw [Res.ok.injEq] at h2
    rw [← h2.1]
    have hg := runSeq_grow env PTag.macroT _ _ s2 (by rw [h1]; rfl)
    show s2.clock + 1 = s.clock + 1
    rw [hg.grow.clock_eq]
    rfl

/-- The frame flush increments the clock by exactly one on completion. -/
theorem frameFlush_ok_clock (env : Env) (fuel : Nat) (s s' : Sched) (tr : List Ev)
    (h : frameFlush env fuel s = Res.ok s' tr) : s'.clock = s.clock + 1 := by
  obtain ⟨s2, s3, trA, trB, h1, h2, rfl, rfl⟩ := frameFlush_split env fuel s s' tr h
  have g1 := altLoop_grow env fuel _ s2 (by rw [h1]; rfl)
  have g2 := afterLoop_grow env fuel s2 s3 (by rw [h2]; rfl)
  show s3.clock + 1 = s.clock + 1
  rw [g2.clock_eq, g1.clock_eq]
  rfl

/-- An aborted (thrown) microtask flush leaves the clock untouched. -/
theorem microFlush_thrown_clock (env : Env) (fuel : Nat) (s s' : Sched) (tr : List Ev)
    (h : microFlush env fuel s = Res.thrown s' tr) : s'.clock = s.clock := by
  rw [microFlush] at h
  rcases Res.bind_eq_thrown h with he | ⟨s1, tr1, tr2, _, h2, _⟩
  · have hg := microLoop_grow env fuel _ _ s' (by rw [he]; rfl)
    exact hg.grow.clock_eq
  · cases h2

/-- An aborted macrotask flush leaves the clock untouched. -/
theorem macroFlush_thrown_clock (env : Env) (s s' : Sched) (tr : List Ev)
    (h : macroFlush env s = Res.thrown s' tr) : s'.clock = s.clock := by
  rw [macroFlush] at h
  split at h
  · cases h
  · rcases Res.bind_eq_thrown h with he | ⟨s1, tr1, tr2, _, h2, _⟩
    · have hg := runSeq_grow env PTag.macroT _ _ s' (by rw [he]; rfl)
      exact hg.grow.clock_eq
    · cases h2

/-- An aborted frame flush leaves the clock untouched. -/
theorem frameFlush_thrown_clock (env : Env) (fuel : Nat) (s s' : Sched) (tr : List Ev)
    (h : frameFlush env fuel s = Res.thrown s' tr) : s'.clock = s.clock := by
  rw [frameFlush] at h
  rcases Res.bind_eq_thrown h with he | ⟨s1, tr1, tr2, h1, h2, _⟩
  · exact (altLoop_grow env fuel (frameEntry s) s' (by rw [he]; rfl)).clock_eq
  · rcases Res.bind_eq_thrown h2 with he2 | ⟨s2, tr3, tr4, h3, h4, _⟩
    · have ga := altLoop_grow env fuel (frameEntry s) s1 (by rw [h1]; rfl)
      have gb := afterLoop_grow env fuel s1 s' (by rw [he2]; rfl)
      rw [gb.clock_eq, ga.clock_eq]
      rfl
    · cases h4

/-- Any end state of a microtask flush keeps the per-domain RUNNING bits. -/
theorem microFlush_domrun (env : Env) (fuel : Nat) (s s' : Sched)
    (h : (microFlush env fuel s).endSt = some s') :
    s'.flags &&& DOMRUN = s.flags &&& DOMRUN := by
  rw [microFlush] at h
  rcases Res.endSt_bind h with ⟨tr, he⟩ | ⟨s2, tr, he, h2⟩
  · have hg := microLoop_grow env fuel _ _ s' (by rw [he]; rfl)
    rw [hg.grow.domrun]
    exact bit_or_and_disj _ (by decide)
  · rw [Res.endSt, Option.some_inj] at h2
    subst h2
    have hg := microLoop_grow env fuel _ _ s2 (by rw [he]; rfl)
    show bclear s2.flags (MICROTASK_PENDING ||| RUNNING) &&& DOMRUN = s.flags &&& DOMRUN
    rw [bit_clear_and_disj _ (by decide), hg.grow.domrun]
    exact bit_or_and_disj _ (by decide)

/-- Any end state of a macrotask flush keeps the per-domain RUNNING bits. -/
theorem macroFlush_domrun (env : Env) (s s' : Sched)
    (h : (macroFlush env s).endSt = some s') :
    s'.flags &&& DOMRUN = s.flags &&& DOMRUN := by
  have hentry : (macroEntry s).flags &&& DOMRUN = s.flags &&& DOMRUN := by
    show (bclear s.flags MACROTASK_PENDING ||| RUNNING) &&& DOMRUN = s.flags &&& DOMRUN
    rw [bit_or_and_disj _ (by decide), bit_clear_and_disj _ (by decide)]
  rw [macroFlush] at h
  split at h
  · rw [Res.endSt, Option.some_inj] at h
    subst h
    show bclear (macroEntry s).flags RUNNING &&& DOMRUN = s.flags &&& DOMRUN
    rw [bit_clear_and_disj _ (by decide), hentry]
  · rcases Res.endSt_bind h with ⟨tr, he⟩ | ⟨s2, tr, he, h2⟩
    · have hg := runSeq_grow env PTag.macroT _ _ s' (by rw [he]; rfl)
      rw [hg.grow.domrun]
      exact hentry
    · rw [Res.endSt, Option.some_inj] at h2
      subst h2
      have hg := runSeq_grow env PTag.macroT _ _ s2 (by rw [he]; rfl)
      show bclear s2.flags RUNNING &&& DOMRUN = s.flags &&& DOMRUN
      rw [bit_clear_and_disj _ (by decide), hg.grow.domrun]
      exact hentry

/-- Any end state of a frame flush keeps the per-domain RUNNING bits. -/
theorem frameFlush_domrun (env : Env) (fuel : Nat) (s s' : Sched)
    (h : (frameFlush env fuel s).endSt = some s') :
    s'.flags &&& DOMRUN = s.flags &&& DOMRUN := by
  have hentry : (frameEntry s).flags &&& DOMRUN = s.flags &&& DOMRUN := by
    show (bclear s.flags FRAMETASK_PENDING ||| RUNNING) &&& DOMRUN = s.flags &&& DOMRUN
    rw [bit_or_and_disj _ (by decide), bit_clear_and_disj _ (by decide)]
  rw [frameFlush] at h
  rcases Res.endSt_bind h with ⟨tr, he⟩ | ⟨s2, tr, he, h2⟩
  · rw [(altLoop_grow env fuel _ s' (by rw [he]; rfl)).domrun]
    exact hentry
  · have g1 := altLoop_grow env fuel _ s2 (by rw [he]; rfl)
    rcases Res.endSt_bind h2 with ⟨tr2, he2⟩ | ⟨s3, tr2, he2, h3⟩
    · rw [(afterLoop_grow env fuel s2 s' (by rw [he2]; rfl)).domrun, g1.domrun]
      exact hentry
    · have g2 := afterLoop_grow env fuel s2 s3 (by rw [he2]; rfl)
      rw [Res.endSt, Option.some_inj] at h3
      subst h3
      show bclear s3.flags RUNNING &&& DOMRUN = s.flags &&& DOMRUN
      rw [bit_clear_and_disj _ (by decide), g2.domrun, g1.domrun]
      exact hentry

/-- Inversion of an end state. -/
theorem Res.endSt_some {r : Res} {s' : Sched} (h : r.endSt = some s') :
    (∃ tr, r = Res.ok s' tr) ∨ (∃ tr, r = Res.thrown s' tr) := by
  cases r with
  | ok s tr =>
      rw [Res.endSt, Option.some_inj] at h
      subst h
      exact Or.inl ⟨tr, rfl⟩
  | thrown s tr =>
      rw [Res.endSt, Option.some_inj] at h
      subst h
      exact Or.inr ⟨tr, rfl⟩
  | out => rw [Res.endSt] at h; cases h

/-- C3: The clock starts at 1 and, for every completed flush of any single
domain (microtask fixpoint drain, macrotask pass, or frame pass), increases
by exactly 1, regardless of how many tasks ran in that flush; and across
every observable step of the scheduler (including flushes aborted by an
uncaught task error, which leave it unchanged) it never decreases. -/
theorem C3_clock_per_flush :
    Sched.init.clock = 1 ∧
    (∀ (env : Env) (fuel : Nat) (s s' : Sched) (tr : List Ev),
      microFlush env fuel s = Res.ok s' tr → s'.clock = s.clock + 1) ∧
    (∀ (env : Env) (s s' : Sched) (tr : List Ev),
      macroFlush env s = Res.ok s' tr → s'.clock = s.clock + 1) ∧
    (∀ (env : Env) (fuel : Nat) (s s' : Sched) (tr : List Ev),
      frameFlush env fuel s = Res.ok s' tr → s'.clock = s.clock + 1) ∧
    (∀ s s' : Sched, Step s s' → s.clock ≤ s'.clock) := by
  refine ⟨rfl, microFlush_ok_clock, macroFlush_ok_clock, frameFlush_ok_clock, ?_⟩
  intro s s' hstep
  cases hstep with
  | act s a =>
      rw [(applyAct_grow s a).grow.clock_eq]
  | nextF s =>
      rw [nextFrameArm_clock]
  | microF env fuel s s' h =>
      rcases Res.endSt_some h with ⟨tr, he⟩ | ⟨tr, he⟩
      · rw [microFlush_ok_clock env fuel s s' tr he]
        omega
      · rw [microFlush_thrown_clock env fuel s s' tr he]
  | macroF env s s' h =>
      rcases Res.endSt_some h with ⟨tr, he⟩ | ⟨tr, he⟩
      · rw [macroFlush_ok_clock env s s' tr he]
        omega
      · rw [macroFlush_thrown_clock env s s' tr he]
  | frameF env fuel s s' h =>
      rcases Res.endSt_some h with ⟨tr, he⟩ | ⟨tr, he⟩
      · rw [frameFlush_ok_clock env fuel s s' tr he]
        omega
      · rw [frameFlush_thrown_clock env fuel s s' tr he]

/-- Witness for C3: a concrete microtask flush from the fresh scheduler
advances the clock from 1 to 2. -/
theorem C3_clock_per_flush_witness :
    ∃ (s' : Sched) (tr : List Ev),
      microFlush (fun _ => []) 1 Sched.init = Res.ok s' tr ∧
        s'.clock = Sched.init.clock + 1 :=
  ⟨_, _, rfl, C3_clock_per_flush.2.1 (fun _ => []) 1 Sched.init _ _ rfl⟩

/-- C10: no operation of the scheduler ever sets or clears the per-domain
RUNNING bits (MICROTASK_RUNNING, MACROTASK_RUNNING, FRAMETASK_RUNNING): every
step preserves them exactly, so from the fresh scheduler they are always
zero, while the flush entry bookkeeping sets only the generic RUNNING bit. -/
theorem C10_domain_running_unused :
    (∀ s s' : Sched, Step s s' → s'.flags &&& DOMRUN = s.flags &&& DOMRUN) ∧
    (∀ s : Sched, Reach s → s.flags &&& DOMRUN = 0) ∧
    (∀ s : Sched, (macroEntry s).flags &&& RUNNING ≠ 0 ∧
      (frameEntry s).flags &&& RUNNING ≠ 0) := by
  have hstep : ∀ s s' : Sched, Step s s' → s'.flags &&& DOMRUN = s.flags &&& DOMRUN := by
    intro s s' h
    cases h with
    | act s a => exact (applyAct_grow s a).grow.domrun
    | nextF s =>
        obtain ⟨p, hp, e⟩ := nextFrameArm_flags s
        rw [e]
        exact bit_or_and_disj _ (bit_disj_union hp).2
    | microF env fuel s s' h => exact microFlush_domrun env fuel s s' h
    | macroF env s s' h => exact macroFlush_domrun env s s' h
    | frameF env fuel s s' h => exact frameFlush_domrun env fuel s s' h
  refine ⟨hstep, ?_, ?_⟩
  · intro s h
    induction h with
    | refl => decide
    | tail hr hstep1 ih =>
        rw [hstep _ _ hstep1]
        exact ih
  · intro s
    constructor
    · show (bclear s.flags MACROTASK_PENDING ||| RUNNING) &&& RUNNING ≠ 0
      exact bit_or_self_ne _ (by decide)
    · show (bclear s.flags FRAMETASK_PENDING ||| RUNNING) &&& RUNNING ≠ 0
      exact bit_or_self_ne _ (by decide)

/-- Witness for C10: a concrete scheduling step keeps the per-domain RUNNING
bits zero, and the macrotask flush entry sets the generic RUNNING bit. -/
theorem C10_domain_running_unused_witness :
    (Sched.init.scheduleMicrotask 0).flags &&& DOMRUN = 0 ∧
    (macroEntry Sched.init).flags &&& RUNNING ≠ 0 :=
  ⟨C10_domain_running_unused.2.1 _
      (Relation.ReflTransGen.single (Step.act Sched.init (Act.scheduleMicrotask 0))),
    (C10_domain_running_unused.2.2 Sched.init).1⟩

theorem nextFrameArm_of_set {s : Sched} (h : s.flags &&& FRAMETASK_PENDING ≠ 0) :
    s.nextFrameArm = s := by
  rw [Sched.nextFrameArm, if_neg h]

theorem nextFrameArm_sets (s : Sched) :
    (s.nextFrameArm).flags &&& FRAMETASK_PENDING ≠ 0 := by
  rw [Sched.nextFrameArm]
  split
  · exact bit_or_self_ne _ (by decide)
  next hc => exact hc

theorem nfIter_stable : ∀ (k : Nat) (s : Sched),
    s.flags &&& FRAMETASK_PENDING ≠ 0 → nfIter k s = s
  | 0, _, _ => rfl
  | k + 1, s, h => by
      rw [nfIter]
      show nfIter k s.nextFrameArm = s
      rw [nextFrameArm_of_set h]
      exact nfIter_stable k s h

theorem nfIter_nextFrame : ∀ (k : Nat) (s : Sched), (nfIter k s).nextFrame = s.nextFrame
  | 0, _ => rfl
  | k + 1, s => by
      rw [nfIter]
      show (nfIter k s.nextFrameArm).nextFrame = s.nextFrame
      rw [nfIter_nextFrame k s.nextFrameArm, nextFrameArm_nextFrame]

/-- C6: calling nextFrame() N ≥ 1 times before the frame flush fires
requests exactly one host animation-frame callback (the first call sets
FRAMETASK_PENDING, later calls do not re-register), and every call returns
the same "next" Frame. -/
theorem C6_nextFrame_idempotent (s : Sched) (N : Nat)
    (h0 : s.flags &&& FRAMETASK_PENDING = 0) (hN : 1 ≤ N) :
    (nfIter N s).rafCount = s.rafCount + 1 ∧
    (nfIter N s).flags &&& FRAMETASK_PENDING ≠ 0 ∧
    ∀ k : Nat, (Sched.nextFrameCall (nfIter k s)).2 = s.nextFrame := by
  have harm : s.nextFrameArm =
      { s with flags := s.flags ||| FRAMETASK_PENDING, rafCount := s.rafCount + 1 } := by
    rw [Sched.nextFrameArm, if_pos h0]
  have hset := nextFrameArm_sets s
  obtain ⟨n, rfl⟩ : ∃ n, N = n + 1 := ⟨N - 1, by omega⟩
  have hiter : nfIter (n + 1) s = s.nextFrameArm := by
    rw [nfIter]
    show nfIter n s.nextFrameArm = s.nextFrameArm
    exact nfIter_stable n s.nextFrameArm hset
  refine ⟨?_, ?_, ?_⟩
  · rw [hiter, harm]
  · rw [hiter]
    exact hset
  · intro k
    show (nfIter k s).nextFrameArm.nextFrame = s.nextFrame
    rw [nextFrameArm_nextFrame, nfIter_nextFrame]

/-- Witness for C6: three nextFrame() calls on the fresh scheduler request
exactly one host callback and always return the same next frame. -/
theorem C6_nextFrame_idempotent_witness :
    (nfIter 3 Sched.init).rafCount = Sched.init.rafCount + 1 ∧
    (nfIter 3 Sched.init).flags &&& FRAMETASK_PENDING ≠ 0 ∧
    ∀ k : Nat, (Sched.nextFrameCall (nfIter k Sched.init)).2 = Sched.init.nextFrame :=
  C6_nextFrame_idempotent Sched.init 3 (by decide) (by decide)

/-- The trace of a completed macrotask flush is exactly the batch present at
entry, in arrival order (one pass, no fixpoint). -/
theorem macroFlush_trace (env : Env) (s s' : Sched) (tr : List Ev)
    (h : macroFlush env s = Res.ok s' tr) :
    tr = s.macrotasks.map (Ev.run PTag.macroT) := by
  rw [macroFlush] at h
  split at h
  next hemp =>
    rw [Res.ok.injEq] at h
    rw [← h.2]
    have he : s.macrotasks = [] := hemp
    rw [he]
    rfl
  · obtain ⟨s2, tr1, tr2, h1, h2, rfl⟩ := Res.bind_eq_ok h
    rw [Res.ok.injEq] at h2
    rw [← h2.2, List.append_nil]
    exact runSeq_trace env PTag.macroT _ _ s2 tr1 h1

/-- A completed batch containing a task that schedules macrotask u leaves u
queued with MACROTASK_PENDING set. -/
theorem runSeq_macroSet (env : Env) (tag : PTag) {t u : Nat} :
    ∀ (l : List Nat) (s s' : Sched) (tr : List Ev),
      runSeq env tag l s = Res.ok s' tr → t ∈ l →
      Act.scheduleMacrotask u ∈ env t →
      u ∈ s'.macrotasks ∧ s'.flags &&& MACROTASK_PENDING ≠ 0
  | [], _, _, _, _, hm, _ => absurd hm (List.not_mem_nil t)
  | x :: ts, s, s', tr, h, hm, hu => by
      rw [runSeq] at h
      obtain ⟨s1, tr1, tr2, h1, h2, rfl⟩ := Res.bind_eq_ok h
      rcases List.mem_cons.mp hm with heq | hm2
      · subst heq
        obtain ⟨hr, _⟩ := runTask_eq_ok h1
        have hf := runActs_macroSet u (env t) s (by rw [hr]) hu
        rw [hr] at hf
        have hg := runSeq_grow env tag ts s1 s' (by rw [h2]; rfl)
        constructor
        · obtain ⟨l1, e1⟩ := hg.mac_grow
          rw [e1]
          exact List.mem_append_left _ hf.1
        · obtain ⟨p, _, e⟩ := hg.grow.flags_or
          rw [e]
          exact bit_set_mono p hf.2
      · exact runSeq_macroSet env tag ts s1 s' tr2 h2 hm2 hu

/-- C5: the macrotask flush clears MACROTASK_PENDING before running any
task, detaches the queue and executes that batch exactly once in arrival
order; a macrotask scheduling another macrotask therefore leaves the new one
queued (not run in this flush) with a fresh registration armed, and a
subsequent flush runs it. -/
theorem C5_macrotask_deferral (env : Env) (t u : Nat) (s s' : Sched) (tr : List Ev)
    (ht : t ∈ s.macrotasks) (hu : Act.scheduleMacrotask u ∈ env t)
    (hok : macroFlush env s = Res.ok s' tr) :
    (macroEntry s).flags &&& MACROTASK_PENDING = 0 ∧
    tr = s.macrotasks.map (Ev.run PTag.macroT) ∧
    u ∈ s'.macrotasks ∧
    s'.flags &&& MACROTASK_PENDING ≠ 0 ∧
    (u ∉ s.macrotasks → Ev.run PTag.macroT u ∉ tr) ∧
    s'.clock = s.clock + 1 ∧
    (∀ (s'' : Sched) (tr' : List Ev), macroFlush env s' = Res.ok s'' tr' →
      Ev.run PTag.macroT u ∈ tr') := by
  have hpend0 : (macroEntry s).flags &&& MACROTASK_PENDING = 0 := by
    show (bclear s.flags MACROTASK_PENDING ||| RUNNING) &&& MACROTASK_PENDING = 0
    rw [bit_or_and_disj _ (by decide)]
    exact bit_clear_and_self _ _
  have htr := macroFlush_trace env s s' tr hok
  have hclk := macroFlush_ok_clock env s s' tr hok
  rw [macroFlush] at hok
  split at hok
  next hemp =>
    have he : s.macrotasks = [] := hemp
    rw [he] at ht
    exact absurd ht (List.not_mem_nil t)
  · obtain ⟨s2, tr1, tr2, h1, h2, htreq⟩ := Res.bind_eq_ok hok
    have hms := runSeq_macroSet env PTag.macroT _ _ s2 tr1 h1 ht hu
    rw [Res.ok.injEq] at h2
    have hmem : u ∈ s'.macrotasks := by
      rw [← h2.1]
      exact hms.1
    refine ⟨hpend0, htr, hmem, ?_, ?_, hclk, ?_⟩
    · rw [← h2.1]
      show bclear s2.flags RUNNING &&& MACROTASK_PENDING ≠ 0
      rw [bit_clear_and_disj _ (by decide)]
      exact hms.2
    · intro hnu hmemtr
      rw [htr] at hmemtr
      obtain ⟨x, hx, hxe⟩ := List.mem_map.mp hmemtr
      simp only [Ev.run.injEq] at hxe
      rw [hxe.2] at hx
      exact hnu hx
    · intro s'' tr' h2f
      rw [macroFlush_trace env s' s'' tr' h2f]
      exact List.mem_map.mpr ⟨u, hmem, rfl⟩

/-- Witness for C5: in the concrete scenario, the flush runs only task 0,
leaves task 1 queued and never runs it in this pass. -/
theorem C5_macrotask_deferral_witness :
    ∃ (s' : Sched) (tr : List Ev),
      macroFlush envC5 sC5 = Res.ok s' tr ∧ 1 ∈ s'.macrotasks ∧
        Ev.run PTag.macroT 1 ∉ tr :=
  ⟨_, _, rfl,
    (C5_macrotask_deferral envC5 0 1 sC5 _ _ (by decide) (by decide) rfl).2.2.1,
    (C5_macrotask_deferral envC5 0 1 sC5 _ _ (by decide) (by decide) rfl).2.2.2.2.1 (by decide)⟩

theorem microLoop_waves (env : Env) :
    ∀ (fuel : Nat) (batch : List Nat) (s s' : Sched) (tr : List Ev),
      microLoop env fuel batch s = Res.ok s' tr →
      batch = s.microtasks →
      ∃ ws, Waves env batch ws ∧
        tr = ws.flatMap (fun b => Ev.wave :: b.map (Ev.run PTag.micro)) ∧
        s'.microtasks = []
  | fuel, [], s, s', tr, h, hbs => by
      rw [microLoop, Res.ok.injEq] at h
      exact ⟨[], Waves.nil, by rw [← h.2]; rfl, by rw [← h.1, ← hbs]⟩
  | 0, b :: bs, s, s', tr, h, _ => by rw [microLoop] at h; cases h
  | fuel + 1, b :: bs, s, s', tr, h, hbs => by
      rw [microLoop] at h
      obtain ⟨tr0, h0, rfl⟩ := Res.pre_eq_ok h
      obtain ⟨s1, tr1, tr2, h1, h2, rfl⟩ := Res.bind_eq_ok h0
      have hm1 : s1.microtasks = (b :: bs).flatMap (fun t => actMicros (env t)) := by
        rw [runSeq_micro_eq env PTag.micro (b :: bs) _ s1 tr1 h1]
        rfl
      obtain ⟨ws, hws, htr, hfin⟩ := microLoop_waves env fuel s1.microtasks s1 s' tr2 h2 rfl
      refine ⟨(b :: bs) :: ws, ?_, ?_, hfin⟩
      · refine Waves.cons _ ws (by simp) ?_
        rw [← hm1]
        exact hws
      · rw [runSeq_trace env PTag.micro (b :: bs) _ s1 tr1 h1, htr]
        simp [List.flatMap_cons]

/-- C2: the microtask flush drains in discrete waves to a fixpoint: the first
wave is the batch present at entry; a task scheduled during wave N goes into
the freshly detached live queue, which becomes wave N+1 (never joining wave
N); the clock increments only once the whole chain has drained. -/
theorem C2_microtask_waves (env : Env) (fuel : Nat) (s s' : Sched) (tr : List Ev)
    (hok : microFlush env fuel s = Res.ok s' tr) :
    ∃ ws, Waves env s.microtasks ws ∧
      tr = ws.flatMap (fun b => Ev.wave :: b.map (Ev.run PTag.micro)) ∧
      s'.microtasks = [] ∧ s'.clock = s.clock + 1 := by
  have hclk := microFlush_ok_clock env fuel s s' tr hok
  rw [microFlush] at hok
  obtain ⟨s2, tr1, tr2, h1, h2, rfl⟩ := Res.bind_eq_ok hok
  rw [Res.ok.injEq] at h2
  obtain ⟨ws, hws, htr, hfin⟩ := microLoop_waves env fuel _ _ s2 tr1 h1 rfl
  refine ⟨ws, hws, ?_, ?_, hclk⟩
  · rw [← h2.2, List.append_nil]
    exact htr
  · rw [← h2.1]
    exact hfin

/-- Witness for C2 at the concrete scenario. -/
theorem C2_microtask_waves_witness :
    ∃ (s' : Sched) (tr : List Ev),
      microFlush envC2 5 sC2 = Res.ok s' tr ∧
      ∃ ws, Waves envC2 sC2.microtasks ws ∧
        tr = ws.flatMap (fun b => Ev.wave :: b.map (Ev.run PTag.micro)) ∧
        s'.microtasks = [] ∧ s'.clock = sC2.clock + 1 :=
  ⟨_, _, rfl, C2_microtask_waves envC2 5 sC2 _ _ rfl⟩

/-- Only a current-frame priority write touches the current group list. -/
theorem applyAct_groups_eq (s : Sched) (a : Act)
    (hnp : ∀ r u, a ≠ Act.framePrioWrite Tgt.current r u) :
    (applyAct s a).currentFrame.writeTaskGroups = s.currentFrame.writeTaskGroups := by
  cases a with
  | scheduleMicrotask t => rw [applyAct, Sched.scheduleMicrotask]; split <;> rfl
  | scheduleMacrotask t => rw [applyAct, Sched.scheduleMacrotask]; split <;> rfl
  | frameWrite g t =>
      cases g with
      | current => rfl
      | next => rw [applyAct, Sched.updFrame, nextFrameArm_currentFrame]
  | framePrioWrite g r t =>
      cases g with
      | current => exact absurd rfl (hnp r t)
      | next => rw [applyAct, Sched.updFrame, nextFrameArm_currentFrame]
  | frameRead g t =>
      cases g with
      | current => rfl
      | next => rw [applyAct, Sched.updFrame, nextFrameArm_currentFrame]
  | frameAfter g t =>
      cases g with
      | current => rfl
      | next => rw [applyAct, Sched.updFrame, nextFrameArm_currentFrame]
  | throwErr => rfl

theorem runActs_groups_eq : ∀ (acts : List Act) (s : Sched),
    (∀ r u, Act.framePrioWrite Tgt.current r u ∉ acts) →
    (runActs acts s).1.currentFrame.writeTaskGroups = s.currentFrame.writeTaskGroups
  | [], _, _ => rfl
  | a :: rest, s, hnp => by
      by_cases ha : a = Act.throwErr
      · rw [runActs, if_pos ha]
      · have ha2 : ∀ r u, a ≠ Act.framePrioWrite Tgt.current r u := by
          intro r u he
          exact hnp r u (by rw [← he]; exact List.mem_cons_self a rest)
        rw [runActs, if_neg ha,
          runActs_groups_eq rest _ (fun r u hm => hnp r u (List.mem_cons_of_mem a hm)),
          applyAct_groups_eq s a ha2]

theorem runSeq_groups_eq (env : Env) (tag : PTag)
    (henv : ∀ t r u, Act.framePrioWrite Tgt.current r u ∉ env t) :
    ∀ (l : List Nat) (s s' : Sched) (tr : List Ev),
      runSeq env tag l s = Res.ok s' tr →
      s'.currentFrame.writeTaskGroups = s.currentFrame.writeTaskGroups
  | [], s, s', tr, h => by
      rw [runSeq, Res.ok.injEq] at h
      rw [← h.1]
  | t :: ts, s, s', tr, h => by
      rw [runSeq] at h
      obtain ⟨s1, tr1, tr2, h1, h2, rfl⟩ := Res.bind_eq_ok h
      obtain ⟨hr, _⟩ := runTask_eq_ok h1
      have e1 : s1.currentFrame.writeTaskGroups = s.currentFrame.writeTaskGroups := by
        have hq := runActs_groups_eq (env t) s (henv t)
        rw [hr] at hq
        exact hq
      rw [runSeq_groups_eq env tag henv ts s1 s' tr2 h2, e1]

/-- The priority sweep under an environment that never schedules priority
writes into the draining frame: the trace is the concatenation of the groups
in ascending rank order (arrival order within each group), every swept slot
ends up nulled out, slots below the start index are untouched, and the group
list length is unchanged. -/
theorem prioSweep_ordered (env : Env)
    (henv : ∀ t r u, Act.framePrioWrite Tgt.current r u ∉ env t) :
    ∀ (fuel i : Nat) (s s' : Sched) (tr : List Ev),
      prioSweep env fuel i s = Res.ok s' tr →
      tr = ((s.currentFrame.writeTaskGroups.drop i).flatMap
              (fun o => o.getD [])).map (Ev.run PTag.prioT) ∧
      s'.currentFrame.writeTaskGroups.length = s.currentFrame.writeTaskGroups.length ∧
      (∀ j, i ≤ j → j < s.currentFrame.writeTaskGroups.length →
        s'.currentFrame.writeTaskGroups.getD j none = none) ∧
      (∀ j, j < i → s'.currentFrame.writeTaskGroups.getD j none =
        s.currentFrame.writeTaskGroups.getD j none)
  | 0, _, _, _, _, h => by rw [prioSweep] at h; cases h
  | fuel + 1, i, s, s', tr, h => by
      rw [prioSweep] at h
      split at h
      next hlt =>
        rcases hg : s.currentFrame.writeTaskGroups.getD i none with _ | g <;> rw [hg] at h
        · obtain ⟨htr, hlen, hnull, hbelow⟩ := prioSweep_ordered env henv fuel (i + 1) s s' tr h
          have hgel := (List.getD_eq_getElem s.currentFrame.writeTaskGroups none hlt).symm.trans hg
          refine ⟨?_, hlen, ?_, ?_⟩
          · rw [htr, List.drop_eq_getElem_cons hlt, List.flatMap_cons, hgel]
            rfl
          · intro j hij hjlen
            rcases Nat.eq_or_lt_of_le hij with rfl | hlt2
            · rw [hbelow i (Nat.lt_succ_self i)]
              exact hg
            · exact hnull j hlt2 hjlen
          · intro j hji
            exact hbelow j (by omega)
        · obtain ⟨s2, tr1, tr2, h1, h2, rfl⟩ := Res.bind_eq_ok h
          have hseq : s2.currentFrame.writeTaskGroups =
              s.currentFrame.writeTaskGroups.set i none :=
            runSeq_groups_eq env PTag.prioT henv g _ s2 tr1 h1
          obtain ⟨htr, hlen, hnull, hbelow⟩ := prioSweep_ordered env henv fuel (i + 1) s2 s' tr2 h2
          have hgel := (List.getD_eq_getElem s.currentFrame.writeTaskGroups none hlt).symm.trans hg
          refine ⟨?_, ?_, ?_, ?_⟩
          · rw [runSeq_trace env PTag.prioT g _ s2 tr1 h1, htr, hseq,
              List.drop_set_of_lt _ _ (Nat.lt_succ_self i),
              List.drop_eq_getElem_cons hlt, List.flatMap_cons, hgel, ← List.map_append]
            rfl
          · rw [hlen, hseq, List.length_set]
          · intro j hij hjlen
            rcases Nat.eq_or_lt_of_le hij with rfl | hlt2
            · rw [hbelow i (Nat.lt_succ_self i), hseq,
                List.getD_eq_getElem _ none (by rw [List.length_set]; exact hjlen)]
              exact List.getElem_set_self _
            · apply hnull j hlt2
              rw [hseq, List.length_set]
              exact hjlen
          · intro j hji
            have hjlen : j < s.currentFrame.writeTaskGroups.length := by omega
            rw [hbelow j (by omega), hseq,
              List.getD_eq_getElem _ none (by rw [List.length_set]; exact hjlen),
              List.getD_eq_getElem _ none hjlen]
            exact List.getElem_set_ne (by omega) _
      next hge =>
        rw [Res.ok.injEq] at h
        obtain ⟨rfl, rfl⟩ := h
        refine ⟨?_, rfl, ?_, fun j _ => rfl⟩
        · rw [List.drop_eq_nil_of_le (Nat.le_of_not_lt hge)]
          rfl
        · intro j hij hjlen
          exact absurd hjlen (by omega)

/-- C4: during the priority-write phase, writeTaskGroups is iterated in
ascending rank order, each non-empty slot is detached (nulled out) and its
tasks executed in arrival order before any task of a higher rank runs;
stated for the sweep over the whole group list of the draining frame, under
an environment whose tasks do not priority-schedule back into it. -/
theorem C4_priority_groups_ascending (env : Env) (fuel : Nat) (s s' : Sched) (tr : List Ev)
    (henv : ∀ t r u, Act.framePrioWrite Tgt.current r u ∉ env t)
    (hok : prioSweep env fuel 0 s = Res.ok s' tr) :
    tr = (s.currentFrame.writeTaskGroups.flatMap
            (fun o => o.getD [])).map (Ev.run PTag.prioT) ∧
    s'.currentFrame.writeTaskGroups.length = s.currentFrame.writeTaskGroups.length ∧
    ∀ j, j < s.currentFrame.writeTaskGroups.length →
      s'.currentFrame.writeTaskGroups.getD j none = none := by
  obtain ⟨htr, hlen, hnull, _⟩ := prioSweep_ordered env henv fuel 0 s s' tr hok
  exact ⟨htr, hlen, fun j hj => hnull j (Nat.zero_le j) hj⟩

/-- Witness for C4: rank 0's task 10 fully executes before rank 2's task 11,
and both slots are detached. -/
theorem C4_priority_groups_ascending_witness :
    ∃ (s' : Sched) (tr : List Ev),
      prioSweep (fun _ => []) 4 0 sC4 = Res.ok s' tr ∧
      tr = (sC4.currentFrame.writeTaskGroups.flatMap
              (fun o => o.getD [])).map (Ev.run PTag.prioT) ∧
      s'.currentFrame.writeTaskGroups.length =
        sC4.currentFrame.writeTaskGroups.length ∧
      ∀ j, j < sC4.currentFrame.writeTaskGroups.length →
        s'.currentFrame.writeTaskGroups.getD j none = none :=
  ⟨_, _, rfl, C4_priority_groups_ascending (fun _ => []) 4 sC4 _ _
    (by intro t r u; exact List.not_mem_nil _) rfl⟩

/-- C8 (evaluation at the failing input): when a task raises during a frame
flush, the flush aborts with FRAMETASK_PENDING cleared (that clearing runs
at entry, before any task) but the clock NOT incremented and RUNNING still
set: the source wraps nothing in try/finally, so the exit bookkeeping of
lines 175-176 is skipped. -/
theorem C8_throw_skips_exit_bookkeeping :
    ∃ (s1 : Sched) (tr : List Ev),
      frameFlush envC8 4 sC8 = Res.thrown s1 tr ∧
      s1.clock = sC8.clock ∧
      s1.flags &&& RUNNING ≠ 0 ∧
      s1.flags &&& FRAMETASK_PENDING = 0 :=
  ⟨_, _, rfl, rfl, by decide, by decide⟩

/-- C9 counterexample: writeTasks and afterTasks are NOT detached before
iteration.  The write scheduled by read task 2 lands in the very container
being swept, so the already-executed write task 0 runs a second time in the
next write phase; and after the flush both writeTasks and afterTasks still
hold their (stale) entries, while readTasks was detached to null. -/
theorem C9_live_write_after_containers :
    ∃ s' : Sched,
      frameFlush envC9 8 sC9 = Res.ok s' trC9 ∧
      trC9.count (Ev.run PTag.writeT 0) = 2 ∧
      s'.currentFrame.writeTasks = [0, 3] ∧
      s'.currentFrame.afterTasks = [5] ∧
      s'.currentFrame.readTasks = none :=
  ⟨_, rfl, by decide, rfl, rfl, rfl⟩

/-- C9 amended: the microtask queue, the macrotask queue, each
writeTaskGroups slot and readTasks ARE detached before iteration — a
reentrant append lands in a fresh container (the new microtask runs in the
next wave, the new macrotask stays queued for a later flush, the re-filled
group slot and re-created read queue drain in a later iteration without
re-running the already-executed task) — but writeTasks and afterTasks are
iterated live and never replaced. -/
theorem C9_detach_amended :
    (∃ s' : Sched, microFlush envC9a 4 sC9micro = Res.ok s'
        [Ev.wave, Ev.run PTag.micro 0, Ev.wave, Ev.run PTag.micro 1] ∧
        s'.microtasks = []) ∧
    (∃ s' : Sched, macroFlush envC9a sC9macro = Res.ok s' [Ev.run PTag.macroT 10] ∧
        s'.macrotasks = [11]) ∧
    (∃ (s' : Sched) (tr : List Ev), frameFlush envC9a 6 sC9prio = Res.ok s' tr ∧
        tr.count (Ev.run PTag.prioT 20) = 1 ∧ Ev.run PTag.prioT 21 ∈ tr) ∧
    (∃ (s' : Sched) (tr : List Ev), frameFlush envC9a 6 sC9read = Res.ok s' tr ∧
        tr.count (Ev.run PTag.readT 30) = 1 ∧ Ev.run PTag.readT 31 ∈ tr ∧
        s'.currentFrame.readTasks = none) :=
  ⟨⟨_, rfl, rfl⟩, ⟨_, rfl, rfl⟩, ⟨_, _, rfl, by decide, by decide⟩,
    ⟨_, _, rfl, by decide, by decide, rfl⟩⟩

/-- C1: in a frame flush where a read task schedules a new plain write into
the active frame, the alternation trace shows a second write phase and then
a second read phase, with the new write executing in that second write
phase; no after-task run event precedes the alternation's events, and when
the after phase starts all write/read activity has quiesced (WRITE_ANY and
READ are both clear). -/
theorem C1_second_write_read_before_after (env : Env) (fuel : Nat) (s s' : Sched)
    (tr : List Ev) (r w : Nat)
    (hr : r ∈ s.nextFrame.readTasks.getD [])
    (hR : s.nextFrame.flags &&& READ ≠ 0)
    (hw : Act.frameWrite Tgt.current w ∈ env r)
    (hok : frameFlush env fuel s = Res.ok s' tr) :
    ∃ (s2 s3 : Sched) (trA trB : List Ev),
      altLoop env fuel (frameEntry s) = Res.ok s2 trA ∧
      afterLoop env fuel s2 = Res.ok s3 trB ∧
      tr = trA ++ trB ∧
      (∃ t1 t2 t3 t4, trA = Ev.writePhase :: t1 ++ Ev.readPhase :: t2 ++
          Ev.writePhase :: t3 ++ Ev.readPhase :: t4 ∧ Ev.run PTag.writeT w ∈ t3) ∧
      (∀ e ∈ trA, ∀ t, e ≠ Ev.run PTag.afterT t) ∧
      s2.currentFrame.flags &&& WRITE_ANY = 0 ∧
      s2.currentFrame.flags &&& READ = 0 ∧
      (trB = [] ∨
        trB = Ev.afterPhase :: s2.currentFrame.afterTasks.map (Ev.run PTag.afterT)) := by
  obtain ⟨s2, s3, trA, trB, h1, h2, rfl, rfl⟩ := frameFlush_split env fuel s s' tr hok
  obtain ⟨hq1, hq2⟩ := altLoop_ok_flags env fuel _ s2 trA h1
  refine ⟨s2, s3, trA, trB, h1, h2, rfl,
    altLoop_second_pass env fuel (frameEntry s) s2 trA h1 hr hR hw,
    altLoop_no_after env fuel _ s2 trA h1, hq1, hq2, ?_⟩
  rcases afterLoop_ok_once env fuel s2 s3 trB h2 with ⟨_, htb, _⟩ | ⟨_, htb, _⟩
  · exact Or.inl htb
  · exact Or.inr htb

/-- Witness for C1 at the concrete scenario. -/
theorem C1_second_write_read_before_after_witness :
    0 ∈ sC1.nextFrame.readTasks.getD [] ∧
    sC1.nextFrame.flags &&& READ ≠ 0 ∧
    Act.frameWrite Tgt.current 1 ∈ envC1 0 ∧
    ∃ (s' : Sched) (tr : List Ev),
      frameFlush envC1 6 sC1 = Res.ok s' tr ∧
      ∃ (s2 s3 : Sched) (trA trB : List Ev),
        altLoop envC1 6 (frameEntry sC1) = Res.ok s2 trA ∧
        afterLoop envC1 6 s2 = Res.ok s3 trB ∧
        tr = trA ++ trB ∧
        (∃ t1 t2 t3 t4, trA = Ev.writePhase :: t1 ++ Ev.readPhase :: t2 ++
            Ev.writePhase :: t3 ++ Ev.readPhase :: t4 ∧ Ev.run PTag.writeT 1 ∈ t3) ∧
        (∀ e ∈ trA, ∀ t, e ≠ Ev.run PTag.afterT t) ∧
        s2.currentFrame.flags &&& WRITE_ANY = 0 ∧
        s2.currentFrame.flags &&& READ = 0 ∧
        (trB = [] ∨
          trB = Ev.afterPhase :: s2.currentFrame.afterTasks.map (Ev.run PTag.afterT)) :=
  ⟨by decide, by decide, by decide, _, _, rfl,
    C1_second_write_read_before_after envC1 6 sC1 _ _ 0 1
      (by decide) (by decide) (by decide) rfl⟩

/-- C7: in every completed frame pass, after-tasks run strictly after the
write/read alternation has fully quiesced (no after run among the
alternation's events; WRITE_ANY and READ clear at the boundary), and the
afterTasks batch present at that point is executed exactly once, in arrival
order (a pass in which an after-task schedules another current-frame
after-task never completes, so every completed pass has exactly one after
sweep). -/
theorem C7_after_once_after_quiescence (env : Env) (fuel : Nat) (s s' : Sched)
    (tr : List Ev) (hok : frameFlush env fuel s = Res.ok s' tr) :
    ∃ (s2 s3 : Sched) (trA trB : List Ev),
      altLoop env fuel (frameEntry s) = Res.ok s2 trA ∧
      afterLoop env fuel s2 = Res.ok s3 trB ∧
      tr = trA ++ trB ∧
      s2.currentFrame.flags &&& WRITE_ANY = 0 ∧
      s2.currentFrame.flags &&& READ = 0 ∧
      (∀ e ∈ trA, ∀ t, e ≠ Ev.run PTag.afterT t) ∧
      ((s2.currentFrame.flags &&& AFTER = 0 ∧ trB = []) ∨
        (s2.currentFrame.flags &&& AFTER ≠ 0 ∧
          trB = Ev.afterPhase :: s2.currentFrame.afterTasks.map (Ev.run PTag.afterT) ∧
          s3.currentFrame.afterTasks = s2.currentFrame.afterTasks)) := by
  obtain ⟨s2, s3, trA, trB, h1, h2, rfl, rfl⟩ := frameFlush_split env fuel s s' tr hok
  obtain ⟨hq1, hq2⟩ := altLoop_ok_flags env fuel _ s2 trA h1
  rcases afterLoop_ok_once env fuel s2 s3 trB h2 with ⟨ha, hb, _⟩ | hr
  · exact ⟨s2, s3, trA, trB, h1, h2, rfl, hq1, hq2,
      altLoop_no_after env fuel _ s2 trA h1, Or.inl ⟨ha, hb⟩⟩
  · exact ⟨s2, s3, trA, trB, h1, h2, rfl, hq1, hq2,
      altLoop_no_after env fuel _ s2 trA h1, Or.inr hr⟩

/-- Witness for C7 at the concrete scenario. -/
theorem C7_after_once_after_quiescence_witness :
    ∃ (s' : Sched) (tr : List Ev),
      frameFlush (fun _ => []) 4 sC7 = Res.ok s' tr ∧
      ∃ (s2 s3 : Sched) (trA trB : List Ev),
        altLoop (fun _ => []) 4 (frameEntry sC7) = Res.ok s2 trA ∧
        afterLoop (fun _ => []) 4 s2 = Res.ok s3 trB ∧
        tr = trA ++ trB ∧
        s2.currentFrame.flags &&& WRITE_ANY = 0 ∧
        s2.currentFrame.flags &&& READ = 0 ∧
        (∀ e ∈ trA, ∀ t, e ≠ Ev.run PTag.afterT t) ∧
        ((s2.currentFrame.flags &&& AFTER = 0 ∧ trB = []) ∨
          (s2.currentFrame.flags &&& AFTER ≠ 0 ∧
            trB = Ev.afterPhase :: s2.currentFrame.afterTasks.map (Ev.run PTag.afterT) ∧
            s3.currentFrame.afterTasks = s2.currentFrame.afterTasks)) :=
  ⟨_, _, rfl, C7_after_once_after_quiescence (fun _ => []) 4 sC7 _ _ rfl⟩

end Kivi
